import Mathlib

/-!
Verification of the Product Matching & Batched Synchronization Engine
(repository `stage3-performance-lube`, files `src/main.py` and
`src/sv_scraper_v2.py`).

Python strings are modelled as `List Char`; Python dicts as association
lists with insert-overwrite semantics (insertion order preserved, as in
CPython); remote RPC calls are reified as values in a call trace so that
call-count and call-content invariants can be stated.
-/

/-- Association-list lookup: first pair whose key matches (Python dict
lookup; keys are kept unique by `dinsert`). -/
def dlookup {K V : Type} [DecidableEq K] (k : K) : List (K × V) → Option V
  | [] => none
  | (k', v) :: rest => if k' = k then some v else dlookup k rest

/-- Association-list insert with overwrite, keeping the original key
position — the behaviour of `d[k] = v` on a CPython dict. -/
def dinsert {K V : Type} [DecidableEq K] (k : K) (v : V) : List (K × V) → List (K × V)
  | [] => [(k, v)]
  | (k', v') :: rest => if k' = k then (k, v) :: rest else (k', v') :: dinsert k v rest

theorem dlookup_some_mem {K V : Type} [DecidableEq K] {k : K} {v : V} :
    ∀ {l : List (K × V)}, dlookup k l = some v → (k, v) ∈ l := by
  intro l
  induction l with
  | nil => intro h; simp [dlookup] at h
  | cons p rest ih =>
    intro h
    obtain ⟨k', v'⟩ := p
    by_cases hk : k' = k
    · subst hk
      simp [dlookup] at h
      subst h; exact List.mem_cons_self _ _
    · simp [dlookup, hk] at h
      exact List.mem_cons_of_mem _ (ih h)

namespace CodeNormalizer

/-- ASCII case table used to model Python `str.upper()` on the product
codes handled by the repository (`src/main.py`, `CodeNormalizer`). -/
def caseMap : List (Char × Char) :=
  [('a', 'A'), ('b', 'B'), ('c', 'C'), ('d', 'D'), ('e', 'E'), ('f', 'F'),
   ('g', 'G'), ('h', 'H'), ('i', 'I'), ('j', 'J'), ('k', 'K'), ('l', 'L'),
   ('m', 'M'), ('n', 'N'), ('o', 'O'), ('p', 'P'), ('q', 'Q'), ('r', 'R'),
   ('s', 'S'), ('t', 'T'), ('u', 'U'), ('v', 'V'), ('w', 'W'), ('x', 'X'),
   ('y', 'Y'), ('z', 'Z')]

/-- One character of `str.upper()`. -/
def pyUpperChar (c : Char) : Char := (dlookup c caseMap).getD c

/-- `code_str.upper()` (`src/main.py` line 45). -/
def pyUpper (l : List Char) : List Char := l.map pyUpperChar

/-- `str.strip()`: drop leading and trailing whitespace. -/
def pyStrip (l : List Char) : List Char :=
  ((l.dropWhile Char.isWhitespace).reverse.dropWhile Char.isWhitespace).reverse

/-- Helper for `str.split()` with no argument: accumulates the current
token (reversed) and splits on whitespace runs, dropping empty tokens. -/
def splitAux : List Char → List Char → List (List Char)
  | [], acc => if acc.isEmpty then [] else [acc.reverse]
  | c :: rest, acc =>
    if c.isWhitespace then
      if acc.isEmpty then splitAux rest [] else acc.reverse :: splitAux rest []
    else splitAux rest (c :: acc)

/-- `code_str.split()` (`src/main.py` line 44). -/
def splitWs (l : List Char) : List (List Char) := splitAux l []

/-- `' '.join(tokens)` (`src/main.py` line 44). -/
def joinSpace : List (List Char) → List Char
  | [] => []
  | [t] => t
  | t :: ts => t ++ ' ' :: joinSpace ts

/-- `chars_to_remove` (`src/main.py` line 48). -/
def charsToRemove : List Char := ['.', '-', '_', '/', '(', ')', '[', ']', ' ']

/-- `code_str.replace(char, '')` for a single character. -/
def removeAll (c : Char) (l : List Char) : List Char := l.filter (fun x => x ≠ c)

/-- The `for char in chars_to_remove: code_str = code_str.replace(char, '')`
loop (`src/main.py` lines 49-50). -/
def removeChars (l : List Char) : List Char :=
  charsToRemove.foldl (fun s c => removeAll c s) l

/-- `CodeNormalizer.normalize_code` (`src/main.py` lines 34-52).
`none` models a `None` argument; `some []` an empty string (both are
falsy, so the function returns `""`). -/
def normalize_code (code : Option (List Char)) : List Char :=
  match code with
  | none => []
  | some l =>
    if l.isEmpty then []
    else
      pyStrip (removeChars (pyUpper (joinSpace (splitWs (pyStrip l)))))

theorem pyUpperChar_idem (c : Char) : pyUpperChar (pyUpperChar c) = pyUpperChar c := by
  unfold pyUpperChar
  cases h : dlookup c caseMap with
  | none => simp [h]
  | some u =>
    have hmem : (c, u) ∈ caseMap := dlookup_some_mem h
    have hfix : ∀ p ∈ caseMap, (dlookup p.2 caseMap).getD p.2 = p.2 := by decide
    simp only [h, Option.getD_some]
    exact hfix (c, u) hmem

theorem pyUpperChar_eq_or (c : Char) :
    pyUpperChar c = c ∨ pyUpperChar c ∈ caseMap.map Prod.snd := by
  unfold pyUpperChar
  cases h : dlookup c caseMap with
  | none => left; rfl
  | some u =>
    right
    have hmem : (c, u) ∈ caseMap := dlookup_some_mem h
    simpa using List.mem_map_of_mem Prod.snd hmem

theorem caseMap_snd_not_ws : ∀ u ∈ caseMap.map Prod.snd, ¬ u.isWhitespace = true := by
  decide

theorem mem_removeAll {x c : Char} {l : List Char} :
    x ∈ removeAll c l → x ∈ l ∧ x ≠ c := by
  intro h
  simp only [removeAll, List.mem_filter, ne_eq, decide_not, Bool.not_eq_eq_eq_not,
    Bool.not_true, decide_eq_false_iff_not] at h
  exact h

theorem removeAll_eq_self {c : Char} {l : List Char} (h : ∀ x ∈ l, x ≠ c) :
    removeAll c l = l := by
  unfold removeAll
  rw [List.filter_eq_self]
  intro a ha
  simpa using h a ha

theorem mem_foldl_removeAll :
    ∀ (cs : List Char) (l : List Char) (x : Char),
      x ∈ cs.foldl (fun s c => removeAll c s) l → x ∈ l ∧ x ∉ cs := by
  intro cs
  induction cs with
  | nil => intro l x h; simpa using h
  | cons a cs ih =>
    intro l x h
    simp only [List.foldl_cons] at h
    obtain ⟨h1, h2⟩ := ih _ x h
    obtain ⟨h3, h4⟩ := mem_removeAll h1
    exact ⟨h3, by simp [h2, h4]⟩

theorem foldl_removeAll_eq_self :
    ∀ (cs : List Char) (l : List Char), (∀ x ∈ l, x ∉ cs) →
      cs.foldl (fun s c => removeAll c s) l = l := by
  intro cs
  induction cs with
  | nil => intro l _; rfl
  | cons a cs ih =>
    intro l h
    simp only [List.foldl_cons]
    have ha : removeAll a l = l :=
      removeAll_eq_self (fun x hx => by
        have := h x hx
        simp only [List.mem_cons, not_or] at this
        exact this.1)
    rw [ha]
    exact ih l (fun x hx => by
      have := h x hx
      simp only [List.mem_cons, not_or] at this
      exact this.2)

theorem mem_removeChars {x : Char} {l : List Char} :
    x ∈ removeChars l → x ∈ l ∧ x ∉ charsToRemove :=
  mem_foldl_removeAll charsToRemove l x

theorem removeChars_eq_self {l : List Char} (h : ∀ x ∈ l, x ∉ charsToRemove) :
    removeChars l = l :=
  foldl_removeAll_eq_self charsToRemove l h

theorem mem_dropWhile {p : Char → Bool} :
    ∀ {l : List Char} {x : Char}, x ∈ l.dropWhile p → x ∈ l := by
  intro l
  induction l with
  | nil => intro x h; simpa using h
  | cons a l ih =>
    intro x h
    rw [List.dropWhile_cons] at h
    by_cases hp : p a = true
    · simp only [hp, if_true] at h
      exact List.mem_cons_of_mem _ (ih h)
    · simp only [hp, if_false] at h
      exact h

theorem dropWhile_eq_self {p : Char → Bool} {l : List Char}
    (h : ∀ x ∈ l, ¬ p x = true) : l.dropWhile p = l := by
  cases l with
  | nil => rfl
  | cons a l =>
    rw [List.dropWhile_cons, if_neg]
    exact h a (List.mem_cons_self _ _)

theorem mem_pyStrip {x : Char} {l : List Char} : x ∈ pyStrip l → x ∈ l := by
  intro h
  unfold pyStrip at h
  rw [List.mem_reverse] at h
  have h1 := mem_dropWhile h
  rw [List.mem_reverse] at h1
  exact mem_dropWhile h1

theorem pyStrip_eq_self {l : List Char} (h : ∀ x ∈ l, ¬ x.isWhitespace = true) :
    pyStrip l = l := by
  unfold pyStrip
  rw [dropWhile_eq_self h]
  rw [dropWhile_eq_self (fun x hx => h x (List.mem_reverse.mp hx))]
  exact List.reverse_reverse l

theorem splitAux_no_ws :
    ∀ (l acc : List Char), (∀ c ∈ acc, ¬ c.isWhitespace = true) →
      ∀ t ∈ splitAux l acc, ∀ c ∈ t, ¬ c.isWhitespace = true := by
  intro l
  induction l with
  | nil =>
    intro acc hacc t ht c hc
    unfold splitAux at ht
    by_cases he : acc.isEmpty
    · simp [he] at ht
    · simp only [he, if_false, Bool.false_eq_true, List.mem_singleton] at ht
      subst ht
      exact hacc c (List.mem_reverse.mp hc)
  | cons a l ih =>
    intro acc hacc t ht c hc
    unfold splitAux at ht
    by_cases hws : a.isWhitespace = true
    · simp only [hws, if_true] at ht
      by_cases he : acc.isEmpty
      · simp only [he, if_true] at ht
        exact ih [] (by simp) t ht c hc
      · simp only [he, if_false, Bool.false_eq_true, List.mem_cons] at ht
        rcases ht with ht | ht
        · subst ht
          exact hacc c (List.mem_reverse.mp hc)
        · exact ih [] (by simp) t ht c hc
    · simp only [hws, if_false, Bool.false_eq_true] at ht
      refine ih (a :: acc) ?_ t ht c hc
      intro x hx
      rcases List.mem_cons.mp hx with hx | hx
      · subst hx; exact hws
      · exact hacc x hx

theorem splitAux_no_ws_in_input :
    ∀ (l acc : List Char), (∀ c ∈ l, ¬ c.isWhitespace = true) →
      splitAux l acc = if (acc.reverse ++ l).isEmpty then [] else [acc.reverse ++ l] := by
  intro l
  induction l with
  | nil =>
    intro acc _
    unfold splitAux
    simp [List.isEmpty_iff]
  | cons a l ih =>
    intro acc h
    have hws : ¬ a.isWhitespace = true := h a (List.mem_cons_self _ _)
    unfold splitAux
    rw [if_neg hws]
    rw [ih (a :: acc) (fun c hc => h c (List.mem_cons_of_mem _ hc))]
    have harr : (a :: acc).reverse ++ l = acc.reverse ++ a :: l := by
      simp
    rw [harr]

theorem splitWs_no_ws {l : List Char} (hne : ¬ l.isEmpty = true)
    (h : ∀ c ∈ l, ¬ c.isWhitespace = true) : splitWs l = [l] := by
  unfold splitWs
  rw [splitAux_no_ws_in_input l [] h]
  simp only [List.reverse_nil, List.nil_append]
  rw [if_neg hne]

theorem mem_joinSpace :
    ∀ {ts : List (List Char)} {c : Char}, c ∈ joinSpace ts →
      c = ' ' ∨ ∃ t ∈ ts, c ∈ t := by
  intro ts
  induction ts with
  | nil => intro c h; simp [joinSpace] at h
  | cons t ts ih =>
    intro c h
    cases ts with
    | nil =>
      right
      exact ⟨t, List.mem_cons_self _ _, h⟩
    | cons t2 ts2 =>
      show c = ' ' ∨ ∃ u ∈ t :: t2 :: ts2, c ∈ u
      have hj : joinSpace (t :: t2 :: ts2) = t ++ ' ' :: joinSpace (t2 :: ts2) := rfl
      rw [hj] at h
      rcases List.mem_append.mp h with h | h
      · right; exact ⟨t, List.mem_cons_self _ _, h⟩
      · rcases List.mem_cons.mp h with h | h
        · left; exact h
        · rcases ih h with h | ⟨u, hu, hcu⟩
          · left; exact h
          · right; exact ⟨u, List.mem_cons_of_mem _ hu, hcu⟩

theorem map_eq_self_of_fixed {f : Char → Char} :
    ∀ {l : List Char}, (∀ c ∈ l, f c = c) → l.map f = l := by
  intro l
  induction l with
  | nil => intro _; rfl
  | cons a l ih =>
    intro h
    simp only [List.map_cons]
    rw [h a (List.mem_cons_self _ _), ih (fun c hc => h c (List.mem_cons_of_mem _ hc))]

theorem normalize_code_some (l : List Char) :
    normalize_code (some l) =
      if l.isEmpty then []
      else pyStrip (removeChars (pyUpper (joinSpace (splitWs (pyStrip l))))) := rfl

/-- Every character of a normalized code is non-whitespace, outside the
removal set, and a fixed point of uppercasing. -/
theorem normalize_code_chars {x : Option (List Char)} {c : Char}
    (h : c ∈ normalize_code x) :
    ¬ c.isWhitespace = true ∧ c ∉ charsToRemove ∧ pyUpperChar c = c := by
  match x with
  | none => simp [normalize_code] at h
  | some l =>
    rw [normalize_code_some] at h
    by_cases he : l.isEmpty
    · simp [he] at h
    · rw [if_neg he] at h
      have h1 := mem_pyStrip h
      obtain ⟨h2, hnr⟩ := mem_removeChars h1
      obtain ⟨c0, hc0, hup⟩ := List.mem_map.mp h2
      have hfix : pyUpperChar c = c := by
        rw [← hup]; exact pyUpperChar_idem c0
      refine ⟨?_, hnr, hfix⟩
      intro hws
      have hne_sp : c ≠ ' ' := by
        intro hc; subst hc
        exact hnr (by decide)
      rcases pyUpperChar_eq_or c0 with heq | hmem
      · rw [heq] at hup
        subst hup
        rcases mem_joinSpace hc0 with hsp | ⟨t, ht, hct⟩
        · exact hne_sp hsp
        · exact splitAux_no_ws _ [] (by simp) t ht c0 hct hws
      · rw [hup] at hmem
        exact caseMap_snd_not_ws c hmem hws

/-- `normalize_code` is idempotent. -/
theorem normalize_code_idem (x : Option (List Char)) :
    normalize_code (some (normalize_code x)) = normalize_code x := by
  have hchars := @normalize_code_chars x
  set y := normalize_code x with hy
  by_cases he : y.isEmpty
  · rw [List.isEmpty_iff] at he
    rw [he]
    rfl
  · have hnw : ∀ c ∈ y, ¬ c.isWhitespace = true := fun c hc => (hchars hc).1
    have hnr : ∀ c ∈ y, c ∉ charsToRemove := fun c hc => (hchars hc).2.1
    have hfix : ∀ c ∈ y, pyUpperChar c = c := fun c hc => (hchars hc).2.2
    show normalize_code (some y) = y
    rw [normalize_code_some, if_neg he]
    rw [pyStrip_eq_self hnw]
    rw [splitWs_no_ws he hnw]
    have hjs : joinSpace [y] = y := rfl
    rw [hjs]
    unfold pyUpper
    rw [map_eq_self_of_fixed hfix]
    rw [removeChars_eq_self hnr]
    exact pyStrip_eq_self hnw

end CodeNormalizer

theorem dlookup_dinsert_self {K V : Type} [DecidableEq K] (k : K) (v : V) :
    ∀ (m : List (K × V)), dlookup k (dinsert k v m) = some v := by
  intro m
  induction m with
  | nil => simp [dinsert, dlookup]
  | cons p rest ih =>
    obtain ⟨k', v'⟩ := p
    by_cases h : k' = k
    · subst h; simp [dinsert, dlookup]
    · simp [dinsert, dlookup, h, ih]

theorem dlookup_dinsert_ne {K V : Type} [DecidableEq K] {k k' : K} (v : V)
    (h : k' ≠ k) : ∀ (m : List (K × V)), dlookup k (dinsert k' v m) = dlookup k m := by
  intro m
  induction m with
  | nil => simp [dinsert, dlookup, h]
  | cons p rest ih =>
    obtain ⟨k2, v2⟩ := p
    by_cases h2 : k2 = k'
    · subst h2
      simp [dinsert, dlookup, h]
    · by_cases h3 : k2 = k
      · subst h3; simp [dinsert, dlookup, h2]
      · simp [dinsert, dlookup, h2, h3, ih]

/-- The keys of an association list. -/
def dkeys {K V : Type} (m : List (K × V)) : List K := m.map Prod.fst

theorem dkeys_dinsert {K V : Type} [DecidableEq K] (k : K) (v : V) :
    ∀ (m : List (K × V)), dkeys (dinsert k v m) = if k ∈ dkeys m then dkeys m else dkeys m ++ [k] := by
  intro m
  induction m with
  | nil => simp [dinsert, dkeys]
  | cons p rest ih =>
    obtain ⟨k', v'⟩ := p
    by_cases h : k' = k
    · subst h; simp [dinsert, dkeys]
    · simp only [dinsert, if_neg h, dkeys, List.map_cons, List.mem_cons]
      rw [show dkeys (dinsert k v rest) = List.map Prod.fst (dinsert k v rest) from rfl] at ih
      rw [ih]
      by_cases hm : k ∈ List.map Prod.fst rest
      · simp [dkeys, hm, Ne.symm h]
      · simp [hm, Ne.symm h, dkeys]

theorem dkeys_dinsert_nodup {K V : Type} [DecidableEq K] (k : K) (v : V)
    (m : List (K × V)) (h : (dkeys m).Nodup) : (dkeys (dinsert k v m)).Nodup := by
  rw [dkeys_dinsert]
  by_cases hm : k ∈ dkeys m
  · simp [hm, h]
  · simp only [hm, if_false, Bool.false_eq_true]
    simpa [List.nodup_append] using ⟨h, hm⟩

theorem dlookup_isSome_dinsert {K V : Type} [DecidableEq K] {k k' : K} (v : V)
    (m : List (K × V)) (h : k = k' ∨ (dlookup k m).isSome = true) :
    (dlookup k (dinsert k' v m)).isSome = true := by
  by_cases hk : k = k'
  · subst hk; simp [dlookup_dinsert_self]
  · rcases h with h | h
    · exact absurd h hk
    · rw [dlookup_dinsert_ne v (Ne.symm hk)]
      exact h

/-- Grouping step: append payload `x` to the group of `v`, or open a new
group at the end — the behaviour of
`if v not in d: d[v] = []` followed by `d[v].append(x)` on a CPython dict. -/
def groupInsert {V K : Type} [DecidableEq V] (v : V) (x : K) :
    List (V × List K) → List (V × List K)
  | [] => [(v, [x])]
  | (v', ks) :: rest =>
    if v' = v then (v', ks ++ [x]) :: rest else (v', ks) :: groupInsert v x rest

/-- Group a list of (value, payload) pairs by value, preserving first-seen
key order and payload order — the `for ...: d.setdefault(value, []).append(x)`
idiom used to batch writes by value. -/
def groupByValue {V K : Type} [DecidableEq V] (l : List (V × K)) : List (V × List K) :=
  l.foldl (fun acc p => groupInsert p.1 p.2 acc) []

theorem dkeys_groupInsert {V K : Type} [DecidableEq V] (v : V) (x : K) :
    ∀ (acc : List (V × List K)),
      dkeys (groupInsert v x acc) = if v ∈ dkeys acc then dkeys acc else dkeys acc ++ [v] := by
  intro acc
  induction acc with
  | nil => simp [groupInsert, dkeys]
  | cons p rest ih =>
    obtain ⟨v', ks⟩ := p
    by_cases h : v' = v
    · subst h; simp [groupInsert, dkeys]
    · simp only [groupInsert, if_neg h, dkeys, List.map_cons, List.mem_cons]
      rw [show dkeys (groupInsert v x rest) = List.map Prod.fst (groupInsert v x rest) from rfl] at ih
      rw [ih]
      by_cases hm : v ∈ List.map Prod.fst rest
      · simp [dkeys, hm, Ne.symm h]
      · simp [hm, Ne.symm h, dkeys]

theorem dkeys_groupInsert_nodup {V K : Type} [DecidableEq V] (v : V) (x : K)
    (acc : List (V × List K)) (h : (dkeys acc).Nodup) :
    (dkeys (groupInsert v x acc)).Nodup := by
  rw [dkeys_groupInsert]
  by_cases hm : v ∈ dkeys acc
  · simp [hm, h]
  · simp only [hm, if_false, Bool.false_eq_true]
    simpa [List.nodup_append] using ⟨h, hm⟩

theorem mem_dkeys_groupInsert {V K : Type} [DecidableEq V] (v w : V) (x : K)
    (acc : List (V × List K)) :
    w ∈ dkeys (groupInsert v x acc) ↔ w = v ∨ w ∈ dkeys acc := by
  rw [dkeys_groupInsert]
  by_cases hm : v ∈ dkeys acc
  · simp only [hm, if_true]
    constructor
    · intro h; right; exact h
    · intro h; rcases h with h | h
      · subst h; exact hm
      · exact h
  · simp only [hm, if_false, Bool.false_eq_true, List.mem_append, List.mem_singleton]
    tauto

theorem groupByValue_nodup_keys {V K : Type} [DecidableEq V] (l : List (V × K)) :
    (dkeys (groupByValue l)).Nodup := by
  suffices h : ∀ (acc : List (V × List K)), (dkeys acc).Nodup →
      (dkeys (l.foldl (fun acc p => groupInsert p.1 p.2 acc) acc)).Nodup by
    exact h [] (by simp [dkeys])
  induction l with
  | nil => intro acc h; simpa using h
  | cons p rest ih =>
    intro acc h
    simp only [List.foldl_cons]
    exact ih _ (dkeys_groupInsert_nodup p.1 p.2 acc h)

theorem groupByValue_mem_keys {V K : Type} [DecidableEq V] (l : List (V × K)) (w : V) :
    w ∈ dkeys (groupByValue l) ↔ w ∈ l.map Prod.fst := by
  suffices h : ∀ (acc : List (V × List K)),
      (w ∈ dkeys (l.foldl (fun acc p => groupInsert p.1 p.2 acc) acc) ↔
        w ∈ dkeys acc ∨ w ∈ l.map Prod.fst) by
    have := h []
    simpa [groupByValue, dkeys] using this
  induction l with
  | nil => intro acc; simp
  | cons p rest ih =>
    intro acc
    simp only [List.foldl_cons, List.map_cons, List.mem_cons]
    rw [ih (groupInsert p.1 p.2 acc)]
    rw [mem_dkeys_groupInsert]
    tauto

/-- Python `lst[i:i+n]` chunking, i.e. `for i in range(0, len(lst), n)`. -/
def chunksOfGo {α : Type} (n : Nat) : List α → Nat → List (List α)
  | [], _ => []
  | _ :: _, 0 => []
  | a :: rest, fuel + 1 => (a :: rest).take n :: chunksOfGo n ((a :: rest).drop n) fuel

/-- Python `lst[i:i+n]` chunking, `for i in range(0, len(lst), n)`; the
fuel argument (initially the list length) makes the recursion structural
and is never exhausted when `0 < n`. -/
def chunksOf {α : Type} (n : Nat) (l : List α) : List (List α) :=
  chunksOfGo n l l.length

theorem chunksOf_nil {α : Type} (n : Nat) : chunksOf n ([] : List α) = [] := rfl

theorem chunksOfGo_length_le {α : Type} (n : Nat) :
    ∀ (fuel : Nat) (l : List α), ∀ c ∈ chunksOfGo n l fuel, c.length ≤ n := by
  intro fuel
  induction fuel with
  | zero =>
    intro l c hc
    cases l with
    | nil => simp [chunksOfGo] at hc
    | cons a rest => simp [chunksOfGo] at hc
  | succ f ih =>
    intro l c hc
    cases l with
    | nil => simp [chunksOfGo] at hc
    | cons a rest =>
      rw [chunksOfGo] at hc
      rcases List.mem_cons.mp hc with hc | hc
      · subst hc
        simpa using List.length_take_le n (a :: rest)
      · exact ih _ c hc

theorem chunksOf_length_le {α : Type} (n : Nat) (l : List α) :
    ∀ c ∈ chunksOf n l, c.length ≤ n :=
  chunksOfGo_length_le n l.length l

namespace OdooConnector

/-- Does `needle` start `haystack`? (helper for Python `in` on strings). -/
def leadsWith : List Char → List Char → Bool
  | [], _ => true
  | _ :: _, [] => false
  | a :: as, b :: bs => a = b && leadsWith as bs

/-- Python `needle in haystack` on strings: `needle` occurs contiguously
somewhere in `haystack`. -/
def containsSeq (needle : List Char) : List Char → Bool
  | [] => leadsWith needle []
  | c :: rest => leadsWith needle (c :: rest) || containsSeq needle rest

/-- ASCII lower-case table for Python `str.lower()` (the mirror image of
`CodeNormalizer.caseMap`). -/
def lowerMap : List (Char × Char) := CodeNormalizer.caseMap.map (fun p => (p.2, p.1))

/-- One character of `str.lower()`. -/
def pyLowerChar (c : Char) : Char := (dlookup c lowerMap).getD c

/-- `error_msg.lower()` (`src/main.py` lines 151-152). -/
def pyLower (l : List Char) : List Char := l.map pyLowerChar

def msg429 : List Char := ['4', '2', '9']

def msgTooManyRequests : List Char := "Too Many Requests".data

def msgConnection : List Char := "Connection".data

def msgTimeoutLower : List Char := "timeout".data

def msgTemporally : List Char := "Temporally".data

def msgTemporarilyLower : List Char := "temporarily".data

/-- `is_rate_limit` (`src/main.py` line 150). -/
def is_rate_limit (m : List Char) : Bool :=
  containsSeq msg429 m || containsSeq msgTooManyRequests m

/-- `is_connection_error` (`src/main.py` lines 151-152). -/
def is_connection_error (m : List Char) : Bool :=
  containsSeq msgConnection m || containsSeq msgTimeoutLower (pyLower m) ||
    containsSeq msgTemporally m || containsSeq msgTemporarilyLower (pyLower m)

/-- An exception raised by a remote call, with its message string. -/
structure OdooError where
  msg : List Char
  deriving DecidableEq

/-- `is_rate_limit or is_connection_error` — the condition at
`src/main.py` line 154 under which a retry is attempted. -/
def retryable (e : OdooError) : Bool := is_rate_limit e.msg || is_connection_error e.msg

/-- `self.max_retries = 5` (`src/main.py` line 136). -/
def max_retries : Nat := 5

/-- `self.initial_retry_delay = 2.0` seconds (`src/main.py` line 137),
an exact integer. -/
def initial_retry_delay : Nat := 2

/-- The `for attempt in range(self.max_retries)` loop of
`_execute_with_retry` (`src/main.py` lines 139-169), starting from
iteration `attempt` with `remaining = max_retries - attempt` iterations
left.  `oracle i` is what `func(*args, **kwargs)` does on attempt `i`.
Returns the propagated result together with the list of `time.sleep`
delays issued.  The `remaining = 0` base case models the `raise
last_error` after the loop, reachable only if `max_retries = 0`. -/
def retry_go {α : Type} (oracle : Nat → Except OdooError α) (attempt : Nat) :
    Nat → Except OdooError α × List Nat
  | 0 => (Except.error ⟨[]⟩, [])
  | remaining + 1 =>
    match oracle attempt with
    | Except.ok v => (Except.ok v, [])
    | Except.error e =>
      if retryable e = true ∧ remaining ≠ 0 then
        let p := retry_go oracle (attempt + 1) remaining
        (p.1, initial_retry_delay * 2 ^ attempt :: p.2)
      else (Except.error e, [])

/-- `OdooConnector._execute_with_retry` (`src/main.py` lines 139-169). -/
def execute_with_retry {α : Type} (oracle : Nat → Except OdooError α) :
    Except OdooError α × List Nat :=
  retry_go oracle 0 max_retries

theorem retry_go_succ {α : Type} (oracle : Nat → Except OdooError α) (attempt r : Nat) :
    retry_go oracle attempt (r + 1) =
      match oracle attempt with
      | Except.ok v => (Except.ok v, [])
      | Except.error e =>
        if retryable e = true ∧ r ≠ 0 then
          ((retry_go oracle (attempt + 1) r).1,
            initial_retry_delay * 2 ^ attempt :: (retry_go oracle (attempt + 1) r).2)
        else (Except.error e, []) := rfl

theorem retry_go_ok {α : Type} {oracle : Nat → Except OdooError α} {attempt r : Nat}
    {v : α} (h : oracle attempt = Except.ok v) :
    retry_go oracle attempt (r + 1) = (Except.ok v, []) := by
  rw [retry_go_succ, h]

theorem retry_go_retry {α : Type} {oracle : Nat → Except OdooError α} {attempt r : Nat}
    {e : OdooError} (h : oracle attempt = Except.error e) (hr : retryable e = true)
    (hr0 : r ≠ 0) :
    retry_go oracle attempt (r + 1) =
      ((retry_go oracle (attempt + 1) r).1,
        initial_retry_delay * 2 ^ attempt :: (retry_go oracle (attempt + 1) r).2) := by
  rw [retry_go_succ, h]
  simp only []
  rw [if_pos ⟨hr, hr0⟩]

theorem retry_go_stop {α : Type} {oracle : Nat → Except OdooError α} {attempt r : Nat}
    {e : OdooError} (h : oracle attempt = Except.error e)
    (hc : ¬ (retryable e = true ∧ r ≠ 0)) :
    retry_go oracle attempt (r + 1) = (Except.error e, []) := by
  rw [retry_go_succ, h]
  simp only []
  rw [if_neg hc]

theorem retry_go_delays {α : Type} (oracle : Nat → Except OdooError α) :
    ∀ (remaining attempt : Nat),
      List.Chain' (· < ·) (retry_go oracle attempt remaining).2 ∧
        ∀ d ∈ (retry_go oracle attempt remaining).2,
          initial_retry_delay * 2 ^ attempt ≤ d := by
  intro remaining
  induction remaining with
  | zero => intro attempt; simp [retry_go]
  | succ r ih =>
    intro attempt
    cases h : oracle attempt with
    | ok v => rw [retry_go_ok h]; simp
    | error e =>
      by_cases hc : retryable e = true ∧ r ≠ 0
      · rw [retry_go_retry h hc.1 hc.2]
        obtain ⟨ihc, ihb⟩ := ih (attempt + 1)
        constructor
        · rw [List.chain'_cons']
          refine ⟨?_, ihc⟩
          intro b hb
          have hmem : b ∈ (retry_go oracle (attempt + 1) r).2 :=
            List.mem_of_mem_head? hb
          have hle := ihb b hmem
          have hlt : initial_retry_delay * 2 ^ attempt <
              initial_retry_delay * 2 ^ (attempt + 1) := by
            have h2 : (2 : ℕ) ^ attempt < 2 ^ (attempt + 1) :=
              Nat.pow_lt_pow_succ (by norm_num)
            have h0 : 0 < initial_retry_delay := by norm_num [initial_retry_delay]
            exact (Nat.mul_lt_mul_left h0).mpr h2
          exact lt_of_lt_of_le hlt hle
        · intro d hd
          rcases List.mem_cons.mp hd with hd | hd
          · exact hd ▸ le_refl _
          · have := ihb d hd
            calc initial_retry_delay * 2 ^ attempt
                ≤ initial_retry_delay * 2 ^ (attempt + 1) := by
                  exact Nat.mul_le_mul_left _ (Nat.pow_le_pow_right (by norm_num) (by omega))
              _ ≤ d := this
      · rw [retry_go_stop h hc]; simp

theorem retry_go_sleeps_retryable {α : Type} (oracle : Nat → Except OdooError α) :
    ∀ (remaining attempt j : Nat), j < (retry_go oracle attempt remaining).2.length →
      ∃ e, oracle (attempt + j) = Except.error e ∧ retryable e = true := by
  intro remaining
  induction remaining with
  | zero => intro attempt j h; simp [retry_go] at h
  | succ r ih =>
    intro attempt j h
    cases ho : oracle attempt with
    | ok v => rw [retry_go_ok ho] at h; simp at h
    | error e =>
      by_cases hc : retryable e = true ∧ r ≠ 0
      · rw [retry_go_retry ho hc.1 hc.2] at h
        simp only [List.length_cons] at h
        cases j with
        | zero => exact ⟨e, by simpa using ho, hc.1⟩
        | succ j' =>
          have hj : j' < (retry_go oracle (attempt + 1) r).2.length := by omega
          obtain ⟨e', he', hr'⟩ := ih (attempt + 1) j' hj
          exact ⟨e', by rw [show attempt + (j' + 1) = attempt + 1 + j' by omega]; exact he', hr'⟩
      · rw [retry_go_stop ho hc] at h; simp at h

/-- Claim C5: the retry wrapper retries only on rate-limit or transient
connectivity errors, sleeping with strictly increasing delays (base delay
2 doubling each attempt) up to a fixed maximum of 5 attempts; a call that
fails with a rate-limit error twice then succeeds returns the successful
result unmodified (having slept 2 then 4 seconds); a non-retryable
exception, or exhaustion of the retries, propagates the error unmodified. -/
theorem C5_retry_wrapper {α : Type} (oracle : Nat → Except OdooError α) :
    (∀ e, oracle 0 = Except.error e → retryable e = false →
      execute_with_retry oracle = (Except.error e, []))
    ∧ (∀ e0 e1 v, oracle 0 = Except.error e0 → oracle 1 = Except.error e1 →
        is_rate_limit e0.msg = true → is_rate_limit e1.msg = true →
        oracle 2 = Except.ok v →
        execute_with_retry oracle = (Except.ok v, [2, 4]))
    ∧ (∀ es : Nat → OdooError, (∀ i, i < 5 → oracle i = Except.error (es i)) →
        (∀ i, i < 5 → retryable (es i) = true) →
        execute_with_retry oracle = (Except.error (es 4), [2, 4, 8, 16]))
    ∧ List.Chain' (· < ·) (execute_with_retry oracle).2
    ∧ (∀ j, j < (execute_with_retry oracle).2.length →
        ∃ e, oracle j = Except.error e ∧ retryable e = true) := by
  refine ⟨?_, ?_, ?_, ?_, ?_⟩
  · intro e h0 hnr
    have hc : ¬ (retryable e = true ∧ (4 : Nat) ≠ 0) := by simp [hnr]
    show retry_go oracle 0 (4 + 1) = (Except.error e, [])
    rw [retry_go_stop h0 hc]
  · intro e0 e1 v h0 h1 hr0 hr1 h2
    have hre0 : retryable e0 = true := by simp [retryable, hr0]
    have hre1 : retryable e1 = true := by simp [retryable, hr1]
    show retry_go oracle 0 (4 + 1) = _
    rw [retry_go_retry h0 hre0 (by norm_num)]
    show ((retry_go oracle 1 (3 + 1)).1,
      initial_retry_delay * 2 ^ 0 :: (retry_go oracle 1 (3 + 1)).2) = _
    rw [retry_go_retry h1 hre1 (by norm_num)]
    show ((retry_go oracle 2 (2 + 1)).1, initial_retry_delay * 2 ^ 0 ::
      initial_retry_delay * 2 ^ 1 :: (retry_go oracle 2 (2 + 1)).2) = _
    rw [retry_go_ok h2]
    norm_num [initial_retry_delay]
  · intro es hall hret
    show retry_go oracle 0 (4 + 1) = _
    rw [retry_go_retry (hall 0 (by norm_num)) (hret 0 (by norm_num)) (by norm_num)]
    show ((retry_go oracle 1 (3 + 1)).1,
      initial_retry_delay * 2 ^ 0 :: (retry_go oracle 1 (3 + 1)).2) = _
    rw [retry_go_retry (hall 1 (by norm_num)) (hret 1 (by norm_num)) (by norm_num)]
    show ((retry_go oracle 2 (2 + 1)).1, initial_retry_delay * 2 ^ 0 ::
      initial_retry_delay * 2 ^ 1 :: (retry_go oracle 2 (2 + 1)).2) = _
    rw [retry_go_retry (hall 2 (by norm_num)) (hret 2 (by norm_num)) (by norm_num)]
    show ((retry_go oracle 3 (1 + 1)).1, initial_retry_delay * 2 ^ 0 ::
      initial_retry_delay * 2 ^ 1 :: initial_retry_delay * 2 ^ 2 ::
      (retry_go oracle 3 (1 + 1)).2) = _
    rw [retry_go_retry (hall 3 (by norm_num)) (hret 3 (by norm_num)) (by norm_num)]
    show ((retry_go oracle 4 (0 + 1)).1, initial_retry_delay * 2 ^ 0 ::
      initial_retry_delay * 2 ^ 1 :: initial_retry_delay * 2 ^ 2 ::
      initial_retry_delay * 2 ^ 3 :: (retry_go oracle 4 (0 + 1)).2) = _
    rw [retry_go_stop (hall 4 (by norm_num)) (by simp)]
    norm_num [initial_retry_delay]
  · exact (retry_go_delays oracle max_retries 0).1
  · intro j hj
    simpa using retry_go_sleeps_retryable oracle max_retries 0 j hj

/-- A concrete run: two rate-limited attempts, then success with value 7. -/
def oracleScenario : Nat → Except OdooError Nat :=
  fun i => if i < 2 then Except.error ⟨msg429⟩ else Except.ok 7

/-- Witness for C5: on the concrete two-failures-then-success oracle the
wrapper returns the successful value 7 after sleeping 2 then 4 seconds. -/
theorem C5_retry_wrapper_witness :
    execute_with_retry oracleScenario = (Except.ok 7, [2, 4]) :=
  (C5_retry_wrapper oracleScenario).2.1 ⟨msg429⟩ ⟨msg429⟩ 7 rfl rfl
    (by decide) (by decide) rfl

end OdooConnector

namespace BatchStock

/-- A Python value as it appears in a scraped-data dict entry. -/
inductive PyVal where
  | vnone
  | vint (n : Int)
  | vstr (s : List Char)
  deriving DecidableEq

/-- Python truthiness of a `PyVal`. -/
def pyTruthy : PyVal → Bool
  | .vnone => false
  | .vint n => n != 0
  | .vstr s => !s.isEmpty

/-- Digits of a decimal literal, most significant first. -/
def parseDigitsGo : List Char → Nat → Option Nat
  | [], acc => some acc
  | c :: rest, acc =>
    if c.isDigit then parseDigitsGo rest (acc * 10 + (c.toNat - 48)) else none

/-- Python `int(s)` on a string: optional sign, decimal digits, surrounding
whitespace allowed; anything else raises `ValueError`. -/
def pyIntOfStr (s : List Char) : Option Int :=
  match CodeNormalizer.pyStrip s with
  | [] => none
  | '-' :: rest =>
    if rest.isEmpty then none else (parseDigitsGo rest 0).map (fun n => -(n : Int))
  | '+' :: rest =>
    if rest.isEmpty then none else (parseDigitsGo rest 0).map (fun n => (n : Int))
  | l => (parseDigitsGo l 0).map (fun n => (n : Int))

/-- Python `int(v)`: identity on ints, string parse on strings, raises on
`None`.  An `Except.error` models the raised exception. -/
def pyToInt : PyVal → Except (List Char) Int
  | .vint n => Except.ok n
  | .vstr s =>
    match pyIntOfStr s with
    | some n => Except.ok n
    | none => Except.error s
  | .vnone => Except.error []

/-- `disponibilidad = data.get('disponibilidad', 0)` followed by
`disponibilidad = int(disponibilidad) if disponibilidad else 0`
(`src/main.py` lines 1327-1328).  `none` models a missing key. -/
def coerce_disponibilidad (d : Option PyVal) : Except (List Char) Int :=
  let v := d.getD (PyVal.vint 0)
  if pyTruthy v then pyToInt v else Except.ok 0

/-- `stock_quantity = 1 if disponibilidad == 0 else 0`
(`src/main.py` line 1330). -/
def stock_quantity_of (disponibilidad : Int) : Int :=
  if disponibilidad = 0 then 1 else 0

/-- The scraped data consumed by the stock pass: the value under the
`disponibilidad` key, if present. -/
structure StockData where
  disponibilidad : Option PyVal
  deriving DecidableEq

/-- One entry of the cached `product_info` dict
(built by `_preload_product_information`). -/
structure ProductInfoEntry where
  product_id : Nat
  template_id : Option Nat
  is_storable : Bool
  deriving DecidableEq

/-- The slice of `cached_data` used by `_batch_update_stock_quants`. -/
structure CachedStock (κ : Type) where
  scraping_location_id : Nat
  kits_info : List Nat
  product_info : List (κ × ProductInfoEntry)

/-- The result dict of `_batch_update_stock_quants` (`src/main.py` lines
1268-1274).  Error entries keep only the code; `batch_error` models the
final `{"code": "batch", ...}` entry appended by the outer handler. -/
structure StockResults (κ : Type) where
  updated : List κ
  created : List κ
  kits_skipped : List κ
  non_storable_skipped : List κ
  errors : List κ
  batch_error : Bool
  deriving DecidableEq

/-- A mutating RPC issued during the stock pass.  `write` carries the
single quant id and quantity of one `stock.quant write` call; `create`
carries the `(product_id, quantity)` records of one `stock.quant create`
call (the location id is the same for all records). -/
inductive StockCall where
  | write (quant_id : Nat) (quantity : Int)
  | create (location_id : Nat) (records : List (Nat × Int))
  deriving DecidableEq

/-- State threaded through the first loop of `_batch_update_stock_quants`
(`src/main.py` lines 1281-1309). -/
structure Phase1State (κ : Type) where
  product_ids : List Nat
  product_id_to_data : List (Nat × StockData)
  product_id_to_scraping_code : List (Nat × κ)
  results : StockResults κ

def emptyResults (κ : Type) : StockResults κ :=
  ⟨[], [], [], [], [], false⟩

/-- Is the cached entry kit-flagged (`if template_id in kits_info`,
`src/main.py` line 1296)?  A `None` template id is never in the set. -/
def isKit (cache : CachedStock κ) (info : ProductInfoEntry) : Bool :=
  match info.template_id with
  | some t => t ∈ cache.kits_info
  | none => false

variable {κ : Type} [DecidableEq κ]

/-- The eligibility loop of `_batch_update_stock_quants` (`src/main.py`
lines 1286-1309): cache lookup, kit check, storable check, then collection
of the product id and the two dicts. -/
def phase1Go (cache : CachedStock κ) : List (κ × StockData) → Phase1State κ → Phase1State κ
  | [], st => st
  | (code, data) :: rest, st =>
    match dlookup code cache.product_info with
    | none =>
      phase1Go cache rest
        { st with results := { st.results with errors := st.results.errors ++ [code] } }
    | some info =>
      if isKit cache info then
        phase1Go cache rest
          { st with results :=
              { st.results with kits_skipped := st.results.kits_skipped ++ [code] } }
      else if !info.is_storable then
        phase1Go cache rest
          { st with results :=
              { st.results with
                  non_storable_skipped := st.results.non_storable_skipped ++ [code] } }
      else
        phase1Go cache rest
          { st with
              product_ids := st.product_ids ++ [info.product_id],
              product_id_to_data := dinsert info.product_id data st.product_id_to_data,
              product_id_to_scraping_code :=
                dinsert info.product_id code st.product_id_to_scraping_code }

/-- The partitioning loop of `_batch_update_stock_quants` (`src/main.py`
lines 1323-1338): derive the stock quantity for each eligible product id
and split into updates (an existing quant was preloaded) and creates.
An `Except.error` models an exception escaping the loop (e.g. `int()` on
a non-numeric availability), caught only by the whole-batch handler. -/
def phase2Go (d2 : List (Nat × StockData)) (c2 : List (Nat × κ))
    (existing_quants : List (Nat × Nat)) :
    List Nat → Except (List Char) (List (Nat × Int × κ) × List (Nat × Int × κ))
  | [] => Except.ok ([], [])
  | pid :: rest =>
    match dlookup pid c2, dlookup pid d2 with
    | some code, some data =>
      match coerce_disponibilidad data.disponibilidad with
      | Except.error m => Except.error m
      | Except.ok disp =>
        let q := stock_quantity_of disp
        match phase2Go d2 c2 existing_quants rest with
        | Except.error m => Except.error m
        | Except.ok (toUpd, toCre) =>
          match dlookup pid existing_quants with
          | some quant_id => Except.ok ((quant_id, q, code) :: toUpd, toCre)
          | none => Except.ok (toUpd, (pid, q, code) :: toCre)
    | _, _ => Except.error []

/-- The update loop (`src/main.py` lines 1341-1352): one `write` call per
quant record, each independently failing or succeeding (`writeOk`).
Returns (calls, updated codes, error codes), in iteration order. -/
def updatesRun (writeOk : Nat → Bool) :
    List (Nat × Int × κ) → List StockCall × List κ × List κ
  | [] => ([], [], [])
  | (quant_id, q, code) :: rest =>
    let (calls, upd, errs) := updatesRun writeOk rest
    (StockCall.write quant_id q :: calls,
      if writeOk quant_id then code :: upd else upd,
      if writeOk quant_id then errs else code :: errs)

/-- The create block (`src/main.py` lines 1354-1392): one bulk `create`
call for all records; if it fails (`bulkOk = false`), one per-item
`create` call per record, each independently failing (`singleOk`).
Returns (calls, created codes, error codes). -/
def createsRun (location_id : Nat) (bulkOk : Bool) (singleOk : Nat → Bool) :
    List (Nat × Int × κ) → List StockCall × List κ × List κ
  | [] => ([], [], [])
  | first :: rest =>
    let toCre := first :: rest
    let records := toCre.map (fun r => (r.1, r.2.1))
    if bulkOk then
      ([StockCall.create location_id records], toCre.map (fun r => r.2.2), [])
    else
      (StockCall.create location_id records ::
          toCre.map (fun r => StockCall.create location_id [(r.1, r.2.1)]),
        (toCre.filter (fun r => singleOk r.1)).map (fun r => r.2.2),
        (toCre.filter (fun r => !singleOk r.1)).map (fun r => r.2.2))

/-- `_batch_update_stock_quants` (`src/main.py` lines 1264-1400), as a
function of the preloaded quant map (`existing_quants`, the response of
`_preload_existing_quants`) and oracles for the outcome of each mutating
call.  Returns the results dict and the trace of mutating calls issued. -/
def batch_update_stock_quants (products_data : List (κ × StockData))
    (cache : CachedStock κ) (existing_quants : List (Nat × Nat))
    (writeOk : Nat → Bool) (bulkOk : Bool) (singleOk : Nat → Bool) :
    StockResults κ × List StockCall :=
  let st := phase1Go cache products_data
    ⟨[], [], [], emptyResults κ⟩
  if st.product_ids.isEmpty then (st.results, [])
  else
    match phase2Go st.product_id_to_data st.product_id_to_scraping_code
        existing_quants st.product_ids with
    | Except.error _ => ({ st.results with batch_error := true }, [])
    | Except.ok (toUpd, toCre) =>
      let (wcalls, upd, uerrs) := updatesRun writeOk toUpd
      let (ccalls, cre, cerrs) :=
        createsRun cache.scraping_location_id bulkOk singleOk toCre
      ({ st.results with
          updated := upd,
          created := cre,
          errors := st.results.errors ++ uerrs ++ cerrs },
        wcalls ++ ccalls)

/-- A product id that entered the write set: it belongs to some cache
entry that passed the kit and storable checks. -/
def EligiblePid (cache : CachedStock κ) (p : Nat) : Prop :=
  ∃ c i, dlookup c cache.product_info = some i ∧ isKit cache i = false ∧
    i.is_storable = true ∧ i.product_id = p

theorem phase1Go_sound (cache : CachedStock κ) :
    ∀ (pd : List (κ × StockData)) (st : Phase1State κ),
      (∀ p ∈ st.product_ids, EligiblePid cache p) →
      (∀ p c, dlookup p st.product_id_to_scraping_code = some c →
        ∃ i, dlookup c cache.product_info = some i ∧ isKit cache i = false ∧
          i.is_storable = true ∧ i.product_id = p) →
      (∀ p ∈ (phase1Go cache pd st).product_ids, EligiblePid cache p) ∧
      (∀ p c, dlookup p (phase1Go cache pd st).product_id_to_scraping_code = some c →
        ∃ i, dlookup c cache.product_info = some i ∧ isKit cache i = false ∧
          i.is_storable = true ∧ i.product_id = p) := by
  intro pd
  induction pd with
  | nil => intro st h1 h2; exact ⟨h1, h2⟩
  | cons pr rest ih =>
    intro st h1 h2
    obtain ⟨code, data⟩ := pr
    show (∀ p ∈ (phase1Go cache ((code, data) :: rest) st).product_ids, _) ∧ _
    rw [phase1Go]
    cases hl : dlookup code cache.product_info with
    | none => exact ih _ h1 h2
    | some info =>
      by_cases hk : isKit cache info = true
      · simp only [hk, if_true]
        exact ih _ h1 h2
      · simp only [hk, if_false, Bool.false_eq_true]
        by_cases hs : info.is_storable = true
        · simp only [hs, Bool.not_true, if_false, Bool.false_eq_true]
          refine ih _ ?_ ?_
          · intro p hp
            rcases List.mem_append.mp hp with hp | hp
            · exact h1 p hp
            · rw [List.mem_singleton] at hp
              exact ⟨code, info, hl, by simpa using hk, hs, hp.symm⟩
          · intro p c hc
            by_cases hpe : info.product_id = p
            · subst hpe
              rw [dlookup_dinsert_self] at hc
              obtain rfl : code = c := by simpa using hc
              exact ⟨info, hl, by simpa using hk, hs, rfl⟩
            · rw [dlookup_dinsert_ne _ hpe] at hc
              exact h2 p c hc
        · have hs' : info.is_storable = false := by
            cases hb : info.is_storable
            · rfl
            · exact absurd hb hs
          simp only [hs', Bool.not_false, if_true]
          exact ih _ h1 h2

theorem phase1Go_frozen (cache : CachedStock κ) :
    ∀ (pd : List (κ × StockData)) (st : Phase1State κ),
      (phase1Go cache pd st).results.updated = st.results.updated ∧
        (phase1Go cache pd st).results.created = st.results.created := by
  intro pd
  induction pd with
  | nil => intro st; exact ⟨rfl, rfl⟩
  | cons pr rest ih =>
    intro st
    obtain ⟨code, data⟩ := pr
    rw [phase1Go]
    cases hl : dlookup code cache.product_info with
    | none => exact ih _
    | some info =>
      by_cases hk : isKit cache info = true
      · simp only [hk, if_true]; exact ih _
      · simp only [hk, if_false, Bool.false_eq_true]
        cases hb : info.is_storable
        · simp only [Bool.not_false, if_true]; exact ih _
        · simp only [Bool.not_true, if_false, Bool.false_eq_true]; exact ih _

theorem phase1Go_kits_suffix (cache : CachedStock κ) :
    ∀ (pd : List (κ × StockData)) (st : Phase1State κ),
      ∃ t, (phase1Go cache pd st).results.kits_skipped =
        st.results.kits_skipped ++ t := by
  intro pd
  induction pd with
  | nil => intro st; exact ⟨[], by simp [phase1Go]⟩
  | cons pr rest ih =>
    intro st
    obtain ⟨code, data⟩ := pr
    rw [phase1Go]
    cases hl : dlookup code cache.product_info with
    | none => exact ih _
    | some info =>
      by_cases hk : isKit cache info = true
      · simp only [hk, if_true]
        obtain ⟨t, ht⟩ := ih
          { st with results :=
              { st.results with kits_skipped := st.results.kits_skipped ++ [code] } }
        exact ⟨[code] ++ t, by simpa using ht⟩
      · simp only [hk, if_false, Bool.false_eq_true]
        cases hb : info.is_storable
        · simp only [Bool.not_false, if_true]; exact ih _
        · simp only [Bool.not_true, if_false, Bool.false_eq_true]; exact ih _

theorem phase1Go_kit_skipped (cache : CachedStock κ) :
    ∀ (pd : List (κ × StockData)) (st : Phase1State κ) (c : κ) (d : StockData)
      (info : ProductInfoEntry), (c, d) ∈ pd →
      dlookup c cache.product_info = some info → isKit cache info = true →
      c ∈ (phase1Go cache pd st).results.kits_skipped := by
  intro pd
  induction pd with
  | nil => intro st c d info h; simp at h
  | cons pr rest ih =>
    intro st c d info hmem hl hk
    obtain ⟨code, data⟩ := pr
    rcases List.mem_cons.mp hmem with heq | hrest
    · simp only [Prod.mk.injEq] at heq
      obtain ⟨rfl, rfl⟩ := heq
      rw [phase1Go, hl]
      simp only [hk, if_true]
      obtain ⟨t, ht⟩ := phase1Go_kits_suffix cache rest
        { st with results :=
            { st.results with kits_skipped := st.results.kits_skipped ++ [c] } }
      rw [ht]
      simp
    · rw [phase1Go]
      cases hl2 : dlookup code cache.product_info with
      | none => exact ih _ c d info hrest hl hk
      | some info2 =>
        by_cases hk2 : isKit cache info2 = true
        · simp only [hk2, if_true]
          exact ih _ c d info hrest hl hk
        · simp only [hk2, if_false, Bool.false_eq_true]
          cases hb : info2.is_storable
          · simp only [Bool.not_false, if_true]
            exact ih _ c d info hrest hl hk
          · simp only [Bool.not_true, if_false, Bool.false_eq_true]
            exact ih _ c d info hrest hl hk

theorem phase2Go_sound {d2 : List (Nat × StockData)} {c2 : List (Nat × κ)}
    {existing_quants : List (Nat × Nat)} :
    ∀ {pids : List Nat} {toUpd toCre : List (Nat × Int × κ)},
      phase2Go d2 c2 existing_quants pids = Except.ok (toUpd, toCre) →
      (∀ r ∈ toUpd, ∃ pid ∈ pids, dlookup pid c2 = some r.2.2 ∧
        dlookup pid existing_quants = some r.1) ∧
      (∀ r ∈ toCre, r.1 ∈ pids ∧ dlookup r.1 c2 = some r.2.2) := by
  intro pids
  induction pids with
  | nil =>
    intro toUpd toCre h
    simp only [phase2Go, Except.ok.injEq, Prod.mk.injEq] at h
    obtain ⟨h1, h2⟩ := h
    constructor
    · intro r hr; rw [← h1] at hr; simp at hr
    · intro r hr; rw [← h2] at hr; simp at hr
  | cons pid rest ih =>
    intro toUpd toCre h
    rw [phase2Go] at h
    cases hc : dlookup pid c2 with
    | none =>
      rw [hc] at h
      cases hd : dlookup pid d2 <;> rw [hd] at h <;> simp at h
    | some code =>
      rw [hc] at h
      cases hd : dlookup pid d2 with
      | none => rw [hd] at h; simp at h
      | some data =>
        rw [hd] at h
        simp only [] at h
        cases hco : coerce_disponibilidad data.disponibilidad with
        | error m => rw [hco] at h; simp at h
        | ok disp =>
          rw [hco] at h
          simp only [] at h
          cases hrec : phase2Go d2 c2 existing_quants rest with
          | error m => rw [hrec] at h; simp at h
          | ok pr =>
            obtain ⟨u, cr⟩ := pr
            rw [hrec] at h
            simp only [] at h
            obtain ⟨hu, hcr⟩ := ih hrec
            cases hq : dlookup pid existing_quants with
            | some quant_id =>
              rw [hq] at h
              simp only [Except.ok.injEq, Prod.mk.injEq] at h
              obtain ⟨h1, h2⟩ := h
              constructor
              · intro r hr
                rw [← h1] at hr
                rcases List.mem_cons.mp hr with hr | hr
                · subst hr
                  exact ⟨pid, List.mem_cons_self _ _, hc, hq⟩
                · obtain ⟨p, hp, hcp, hqp⟩ := hu r hr
                  exact ⟨p, List.mem_cons_of_mem _ hp, hcp, hqp⟩
              · intro r hr
                rw [← h2] at hr
                obtain ⟨hp, hcp⟩ := hcr r hr
                exact ⟨List.mem_cons_of_mem _ hp, hcp⟩
            | none =>
              rw [hq] at h
              simp only [Except.ok.injEq, Prod.mk.injEq] at h
              obtain ⟨h1, h2⟩ := h
              constructor
              · intro r hr
                rw [← h1] at hr
                obtain ⟨p, hp, hcp, hqp⟩ := hu r hr
                exact ⟨p, List.mem_cons_of_mem _ hp, hcp, hqp⟩
              · intro r hr
                rw [← h2] at hr
                rcases List.mem_cons.mp hr with hr | hr
                · subst hr
                  exact ⟨List.mem_cons_self _ _, hc⟩
                · obtain ⟨hp, hcp⟩ := hcr r hr
                  exact ⟨List.mem_cons_of_mem _ hp, hcp⟩

theorem updatesRun_calls (writeOk : Nat → Bool) :
    ∀ (l : List (Nat × Int × κ)),
      (updatesRun writeOk l).1 = l.map (fun r => StockCall.write r.1 r.2.1) := by
  intro l
  induction l with
  | nil => rfl
  | cons r rest ih =>
    obtain ⟨qid, q, code⟩ := r
    simp only [updatesRun, List.map_cons]
    rw [← ih]

theorem updatesRun_updated (writeOk : Nat → Bool) :
    ∀ (l : List (Nat × Int × κ)) (c : κ), c ∈ (updatesRun writeOk l).2.1 →
      ∃ r ∈ l, r.2.2 = c := by
  intro l
  induction l with
  | nil => intro c h; simp [updatesRun] at h
  | cons r rest ih =>
    intro c h
    obtain ⟨qid, q, code⟩ := r
    simp only [updatesRun] at h
    by_cases hw : writeOk qid = true
    · rw [if_pos hw] at h
      rcases List.mem_cons.mp h with h | h
      · exact ⟨(qid, q, code), List.mem_cons_self _ _, h.symm⟩
      · obtain ⟨r', hr', hc⟩ := ih c h
        exact ⟨r', List.mem_cons_of_mem _ hr', hc⟩
    · rw [if_neg hw] at h
      obtain ⟨r', hr', hc⟩ := ih c h
      exact ⟨r', List.mem_cons_of_mem _ hr', hc⟩

theorem createsRun_calls (location_id : Nat) (bulkOk : Bool) (singleOk : Nat → Bool)
    (l : List (Nat × Int × κ)) :
    ∀ call ∈ (createsRun location_id bulkOk singleOk l).1,
      ∃ recs, call = StockCall.create location_id recs ∧
        ∀ pr ∈ recs, ∃ r ∈ l, r.1 = pr.1 := by
  intro call hc
  cases l with
  | nil => simp [createsRun] at hc
  | cons first rest =>
    rw [createsRun] at hc
    by_cases hb : bulkOk = true
    · rw [if_pos hb] at hc
      rw [List.mem_singleton] at hc
      refine ⟨_, hc, ?_⟩
      intro pr hpr
      obtain ⟨r, hr, hrp⟩ := List.mem_map.mp hpr
      exact ⟨r, hr, by rw [← hrp]⟩
    · rw [if_neg hb] at hc
      rcases List.mem_cons.mp hc with hc | hc
      · refine ⟨_, hc, ?_⟩
        intro pr hpr
        obtain ⟨r, hr, hrp⟩ := List.mem_map.mp hpr
        exact ⟨r, hr, by rw [← hrp]⟩
      · obtain ⟨r, hr, hrc⟩ := List.mem_map.mp hc
        refine ⟨[(r.1, r.2.1)], hrc.symm, ?_⟩
        intro pr hpr
        rw [List.mem_singleton] at hpr
        exact ⟨r, hr, by rw [hpr]⟩

theorem createsRun_created (location_id : Nat) (bulkOk : Bool) (singleOk : Nat → Bool)
    (l : List (Nat × Int × κ)) :
    ∀ c ∈ (createsRun location_id bulkOk singleOk l).2.1, ∃ r ∈ l, r.2.2 = c := by
  intro c hc
  cases l with
  | nil => simp [createsRun] at hc
  | cons first rest =>
    rw [createsRun] at hc
    by_cases hb : bulkOk = true
    · rw [if_pos hb] at hc
      obtain ⟨r, hr, hrc⟩ := List.mem_map.mp hc
      exact ⟨r, hr, hrc⟩
    · rw [if_neg hb] at hc
      obtain ⟨r, hr, hrc⟩ := List.mem_map.mp hc
      exact ⟨r, List.mem_of_mem_filter hr, hrc⟩

/-- Claim C1: in the stock pass, a `(code, data)` pair whose cached
template id is kit-flagged triggers no stock write or create call for
that record — the eligibility check runs before any write — and the code
is reported in `kits_skipped`.  The two side conditions say the cache and
quant map are coherent: entries sharing the kit's product id are also
kit-flagged (the preload builds one entry per product), and distinct
products have distinct quant ids. -/
theorem C1_kit_skipped_no_write (products_data : List (κ × StockData))
    (cache : CachedStock κ) (existing_quants : List (Nat × Nat))
    (writeOk : Nat → Bool) (bulkOk : Bool) (singleOk : Nat → Bool)
    (c : κ) (d : StockData) (info : ProductInfoEntry) (t : Nat)
    (hmem : (c, d) ∈ products_data)
    (hinfo : dlookup c cache.product_info = some info)
    (ht : info.template_id = some t) (hkit : t ∈ cache.kits_info)
    (hcoh : ∀ p ∈ cache.product_info, p.2.product_id = info.product_id →
      isKit cache p.2 = true)
    (hq : ∀ p1 ∈ existing_quants, ∀ p2 ∈ existing_quants, p1.2 = p2.2 → p1.1 = p2.1) :
    c ∈ (batch_update_stock_quants products_data cache existing_quants
        writeOk bulkOk singleOk).1.kits_skipped
    ∧ (∀ qid qty, StockCall.write qid qty ∈
        (batch_update_stock_quants products_data cache existing_quants
          writeOk bulkOk singleOk).2 →
        dlookup info.product_id existing_quants ≠ some qid)
    ∧ (∀ loc recs, StockCall.create loc recs ∈
        (batch_update_stock_quants products_data cache existing_quants
          writeOk bulkOk singleOk).2 →
        ∀ q, (info.product_id, q) ∉ recs)
    ∧ c ∉ (batch_update_stock_quants products_data cache existing_quants
        writeOk bulkOk singleOk).1.updated
    ∧ c ∉ (batch_update_stock_quants products_data cache existing_quants
        writeOk bulkOk singleOk).1.created := by
  have hkitc : isKit cache info = true := by
    simp [isKit, ht, hkit]
  set st := phase1Go cache products_data ⟨[], [], [], emptyResults κ⟩ with hst
  obtain ⟨hpids, hc2⟩ := phase1Go_sound cache products_data
    ⟨[], [], [], emptyResults κ⟩ (by simp) (by simp [dlookup])
  rw [← hst] at hpids hc2
  have hskip : c ∈ st.results.kits_skipped :=
    phase1Go_kit_skipped cache products_data _ c d info hmem hinfo hkitc
  obtain ⟨hfrozenU, hfrozenC⟩ := phase1Go_frozen cache products_data
    ⟨[], [], [], emptyResults κ⟩
  rw [← hst] at hfrozenU hfrozenC
  -- the kit's product id never satisfies the eligibility predicate
  have hnp : ∀ p, EligiblePid cache p → p ≠ info.product_id := by
    rintro p ⟨c', i', hl', hk', _, rfl⟩
    intro hpe
    have := hcoh (c', i') (dlookup_some_mem hl') (by rw [hpe])
    rw [this] at hk'
    simp at hk'
  -- nor is any eligible code equal to c
  have hnc : ∀ p c', dlookup p st.product_id_to_scraping_code = some c' → c' ≠ c := by
    intro p c' hl' hcc
    subst hcc
    obtain ⟨i', hli', hki', _, _⟩ := hc2 p c' hl'
    rw [hinfo] at hli'
    obtain rfl : info = i' := by simpa using hli'
    rw [hkitc] at hki'
    simp at hki'
  unfold batch_update_stock_quants
  rw [← hst]
  by_cases hemp : st.product_ids.isEmpty = true
  · simp only [hemp, if_true]
    refine ⟨hskip, by simp, by simp, ?_, ?_⟩
    · rw [hfrozenU]; simp [emptyResults]
    · rw [hfrozenC]; simp [emptyResults]
  · simp only [hemp, if_false, Bool.false_eq_true]
    cases hp2 : phase2Go st.product_id_to_data st.product_id_to_scraping_code
        existing_quants st.product_ids with
    | error m =>
      refine ⟨hskip, by simp, by simp, ?_, ?_⟩
      · show c ∉ st.results.updated
        rw [hfrozenU]; simp [emptyResults]
      · show c ∉ st.results.created
        rw [hfrozenC]; simp [emptyResults]
    | ok pr =>
      obtain ⟨toUpd, toCre⟩ := pr
      obtain ⟨hupd, hcre⟩ := phase2Go_sound hp2
      refine ⟨hskip, ?_, ?_, ?_, ?_⟩
      · intro qid qty hcall hlq
        simp only at hcall
        rcases List.mem_append.mp hcall with hcall | hcall
        · rw [updatesRun_calls] at hcall
          obtain ⟨r, hr, hrw⟩ := List.mem_map.mp hcall
          obtain ⟨pid, hpid, _, hqid⟩ := hupd r hr
          have hrq : r.1 = qid := by
            cases r; cases hrw; rfl
          rw [hrq] at hqid
          have hne : pid ≠ info.product_id := hnp pid (hpids pid hpid)
          exact hne (hq (pid, qid) (dlookup_some_mem hqid)
            (info.product_id, qid) (dlookup_some_mem hlq) rfl)
        · obtain ⟨recs, hrec, _⟩ :=
            createsRun_calls cache.scraping_location_id bulkOk singleOk toCre _ hcall
          simp at hrec
      · intro loc recs hcall q hqmem
        simp only at hcall
        rcases List.mem_append.mp hcall with hcall | hcall
        · rw [updatesRun_calls] at hcall
          obtain ⟨r, _, hrw⟩ := List.mem_map.mp hcall
          simp at hrw
        · obtain ⟨recs', hrec, hrecs⟩ :=
            createsRun_calls cache.scraping_location_id bulkOk singleOk toCre _ hcall
          obtain rfl : recs = recs' := by
            cases hrec; rfl
          obtain ⟨r, hr, hrp⟩ := hrecs (info.product_id, q) hqmem
          obtain ⟨hpid, _⟩ := hcre r hr
          rw [hrp] at hpid
          exact hnp info.product_id (hpids _ hpid) rfl
      · intro hcu
        simp only at hcu
        obtain ⟨r, hr, hrc⟩ := updatesRun_updated writeOk toUpd c hcu
        obtain ⟨pid, _, hcp, _⟩ := hupd r hr
        rw [hrc] at hcp
        exact hnc pid c hcp rfl
      · intro hcc
        simp only at hcc
        obtain ⟨r, hr, hrc⟩ :=
          createsRun_created cache.scraping_location_id bulkOk singleOk toCre c hcc
        obtain ⟨hpid, hcp⟩ := hcre r hr
        rw [hrc] at hcp
        exact hnc r.1 c hcp rfl

/-- Witness cache for C1: product 1 (code 1) is a kit (template 7 has a
bill of materials); product 2 (code 2) is a plain storable product. -/
def c1Cache : CachedStock Nat :=
  ⟨99, [7], [(1, ⟨11, some 7, true⟩), (2, ⟨12, some 8, true⟩)]⟩

def c1Products : List (Nat × StockData) :=
  [(1, ⟨some (PyVal.vint 5)⟩), (2, ⟨some (PyVal.vint 0)⟩)]

/-- Witness for C1 at a concrete input: the kit-flagged code 1 lands in
`kits_skipped` and no issued call touches its product or quant. -/
theorem C1_kit_skipped_no_write_witness :
    1 ∈ (batch_update_stock_quants c1Products c1Cache [(12, 600)]
        (fun _ => true) true (fun _ => true)).1.kits_skipped
    ∧ (∀ qid qty, StockCall.write qid qty ∈
        (batch_update_stock_quants c1Products c1Cache [(12, 600)]
          (fun _ => true) true (fun _ => true)).2 →
        dlookup 11 [(12, 600)] ≠ some qid)
    ∧ (∀ loc recs, StockCall.create loc recs ∈
        (batch_update_stock_quants c1Products c1Cache [(12, 600)]
          (fun _ => true) true (fun _ => true)).2 →
        ∀ q, ((11 : Nat), q) ∉ recs)
    ∧ 1 ∉ (batch_update_stock_quants c1Products c1Cache [(12, 600)]
        (fun _ => true) true (fun _ => true)).1.updated
    ∧ 1 ∉ (batch_update_stock_quants c1Products c1Cache [(12, 600)]
        (fun _ => true) true (fun _ => true)).1.created :=
  C1_kit_skipped_no_write c1Products c1Cache [(12, 600)]
    (fun _ => true) true (fun _ => true) 1 ⟨some (PyVal.vint 5)⟩ ⟨11, some 7, true⟩ 7
    (by decide) (by decide) (by decide) (by decide)
    (by decide) (by decide)

/-- Counterexample for C8: the claim says the availability is coerced to a
non-negative integer and that invalid values coerce to zero without
raising.  The code's coercion maps the integer -3 to -3 (negative), and
raises on the non-numeric string "abc" instead of coercing it to zero. -/
theorem C8_availability_counterexample :
    coerce_disponibilidad (some (PyVal.vint (-3))) = Except.ok (-3)
    ∧ (-3 : Int) < 0
    ∧ coerce_disponibilidad (some (PyVal.vstr ['a', 'b', 'c'])) =
        Except.error ['a', 'b', 'c'] := by
  refine ⟨by rfl, by decide, by rfl⟩

/-- Witness cache for the C8 batch-abort conjunct: one storable product
whose scraped availability is the non-numeric string "x". -/
def c8Cache : CachedStock Nat := ⟨99, [], [(1, ⟨11, some 7, true⟩)]⟩

def c8Products : List (Nat × StockData) := [(1, ⟨some (PyVal.vstr ['x'])⟩)]

/-- Claim C8 (amended): `data.get('disponibilidad', 0)` followed by
`int(disponibilidad) if disponibilidad else 0` coerces a missing or falsy
availability to zero; a truthy integer passes through unchanged with no
non-negative clamp; a truthy non-numeric string raises, aborting the
stock pass with a batch-level error before any write call; the derived
stock quantity (1 if the coerced value is 0, else 0) is itself always 0
or 1. -/
theorem C8_availability_coercion (v : PyVal) (n d : Int)
    (hv : pyTruthy v = false) (hn : n ≠ 0) :
    coerce_disponibilidad none = Except.ok 0
    ∧ coerce_disponibilidad (some v) = Except.ok 0
    ∧ coerce_disponibilidad (some (PyVal.vint n)) = Except.ok n
    ∧ (stock_quantity_of d = 0 ∨ stock_quantity_of d = 1)
    ∧ (batch_update_stock_quants c8Products c8Cache []
        (fun _ => true) true (fun _ => true)).1.batch_error = true
    ∧ (batch_update_stock_quants c8Products c8Cache []
        (fun _ => true) true (fun _ => true)).2 = [] := by
  refine ⟨by rfl, ?_, ?_, ?_, by rfl, by rfl⟩
  · simp [coerce_disponibilidad, hv]
  · have hn' : pyTruthy (PyVal.vint n) = true := by
      simp [pyTruthy, hn]
    simp [coerce_disponibilidad, hn', pyToInt]
  · unfold stock_quantity_of
    by_cases hd : d = 0
    · right; rw [if_pos hd]
    · left; rw [if_neg hd]

/-- Witness for the amended C8 at concrete values: the falsy empty string
and the truthy integer -3. -/
theorem C8_availability_coercion_witness :
    coerce_disponibilidad none = Except.ok 0
    ∧ coerce_disponibilidad (some (PyVal.vstr [])) = Except.ok 0
    ∧ coerce_disponibilidad (some (PyVal.vint (-3))) = Except.ok (-3)
    ∧ (stock_quantity_of 5 = 0 ∨ stock_quantity_of 5 = 1)
    ∧ (batch_update_stock_quants c8Products c8Cache []
        (fun _ => true) true (fun _ => true)).1.batch_error = true
    ∧ (batch_update_stock_quants c8Products c8Cache []
        (fun _ => true) true (fun _ => true)).2 = [] :=
  C8_availability_coercion (PyVal.vstr []) (-3) 5 (by decide) (by decide)

/-- Concrete input for the C7 counterexample: two storable products whose
scraped availability is 0, so both derive stock quantity 1, and both have
an existing quant. -/
def c7Cache : CachedStock Nat :=
  ⟨99, [], [(10, ⟨1, some 100, true⟩), (20, ⟨2, some 200, true⟩)]⟩

def c7Products : List (Nat × StockData) :=
  [(10, ⟨some (PyVal.vint 0)⟩), (20, ⟨some (PyVal.vint 0)⟩)]

/-- Counterexample for C7: the claim says every target collection groups
updates by the written value and issues exactly one bulk write per
distinct value.  In the stock pass two records updated to the same
quantity 1 produce two separate write calls, not one. -/
theorem C7_stock_write_counterexample :
    (batch_update_stock_quants c7Products c7Cache [(1, 501), (2, 502)]
        (fun _ => true) true (fun _ => true)).2 =
      [StockCall.write 501 1, StockCall.write 502 1]
    ∧ ((batch_update_stock_quants c7Products c7Cache [(1, 501), (2, 502)]
        (fun _ => true) true (fun _ => true)).2.filter
          (fun call => call matches StockCall.write _ 1)).length = 2 := by
  refine ⟨by decide, by decide⟩

/-- Concrete input for the C6 counterexample: 101 storable products with
no existing quant, so all 101 fall in the create partition. -/
def c6Cache : CachedStock Nat :=
  ⟨99, [], (List.range 101).map (fun i => (i, ⟨i + 1000, some (i + 2000), true⟩))⟩

def c6Products : List (Nat × StockData) :=
  (List.range 101).map (fun i => (i, ⟨some (PyVal.vint 5)⟩))

set_option maxRecDepth 8000 in
/-- Counterexample for C6: the claim says creates are issued in fixed-size
chunks (bounded batch size, not one unbounded call).  The stock pass of
`src/main.py` issues a single `create` call carrying all 101 records —
more than the 100-record chunk bound used elsewhere in the repository. -/
theorem C6_unbounded_create_counterexample :
    (batch_update_stock_quants c6Products c6Cache []
        (fun _ => true) true (fun _ => true)).2 =
      [StockCall.create 99 ((List.range 101).map (fun i => (i + 1000, (0 : Int))))]
    ∧ ((List.range 101).map (fun i => (i + 1000, (0 : Int)))).length = 101 := by
  refine ⟨by rfl, by rfl⟩

end BatchStock

namespace BatchSupplier

open BatchStock (ProductInfoEntry)

/-- The scraped data consumed by the supplier-info pass: the parsed cost
price (`float(data.get('precioCosto', 0))`), modelled as an exact
rational.  The `codigo`/`descripcion` fields feed only two unused locals
and are omitted. -/
structure SupplierData where
  precioCosto : ℚ
  deriving DecidableEq

/-- One entry of the preloaded sellers dict
(`_preload_existing_sellers`, keyed by template id). -/
structure SellerInfo where
  id : Nat
  price : ℚ
  deriving DecidableEq

/-- A mutating RPC of the supplier-info pass.  `write` carries the seller
ids and the price of one grouped `product.supplierinfo write`; `create`
carries the `(product_tmpl_id, price)` records of one create call (the
partner id, `min_qty` and `delay` are constants). -/
inductive SupplierCall where
  | write (seller_ids : List Nat) (price : ℚ)
  | create (records : List (Option Nat × ℚ))
  deriving DecidableEq

structure SupplierResults (κ : Type) where
  updated : List κ
  created : List κ
  errors : List κ
  deriving DecidableEq

/-- State of the first loop of `_batch_update_supplierinfo`
(`src/main.py` lines 1441-1455). -/
structure SState (κ : Type) where
  template_ids : List (Option Nat)
  t2d : List (Option Nat × (SupplierData × κ))
  errors : List κ

variable {κ : Type} [DecidableEq κ]

/-- The collection loop of `_batch_update_supplierinfo` (`src/main.py`
lines 1446-1455): cache lookup, then append the template id and record
the `(data, code)` pair under it (later pairs overwrite earlier ones). -/
def sphase1Go (product_info : List (κ × ProductInfoEntry)) :
    List (κ × SupplierData) → SState κ → SState κ
  | [], st => st
  | (code, data) :: rest, st =>
    match dlookup code product_info with
    | none => sphase1Go product_info rest { st with errors := st.errors ++ [code] }
    | some info =>
      sphase1Go product_info rest
        { st with
            template_ids := st.template_ids ++ [info.template_id],
            t2d := dinsert info.template_id (data, code) st.t2d }

/-- The partition loop (`src/main.py` lines 1469-1482): per template id,
update the existing seller only when its cached price differs from the
new price, otherwise skip; with no existing seller, create.  A template
id absent from `t2d` cannot occur (every appended id was inserted). -/
def spartition (t2d : List (Option Nat × (SupplierData × κ)))
    (existing_sellers : List (Nat × SellerInfo)) :
    List (Option Nat) → List (Nat × ℚ × κ) × List (Option Nat × ℚ × κ)
  | [] => ([], [])
  | tid :: rest =>
    let (u, c) := spartition t2d existing_sellers rest
    match dlookup tid t2d with
    | none => (u, c)
    | some (data, code) =>
      match tid with
      | some t =>
        match dlookup t existing_sellers with
        | some seller =>
          if seller.price ≠ data.precioCosto then
            ((seller.id, data.precioCosto, code) :: u, c)
          else (u, c)
        | none => (u, (tid, data.precioCosto, code) :: c)
      | none => (u, (tid, data.precioCosto, code) :: c)

/-- The grouped update block (`src/main.py` lines 1485-1507): one write
call per price group, failing or succeeding as a whole (`writeOk`,
keyed by the written price). -/
def supdatesRun (writeOk : ℚ → Bool) :
    List (ℚ × List (Nat × κ)) → List SupplierCall × List κ × List κ
  | [] => ([], [], [])
  | (price, items) :: rest =>
    let (calls, upd, errs) := supdatesRun writeOk rest
    (SupplierCall.write (items.map Prod.fst) price :: calls,
      if writeOk price then items.map Prod.snd ++ upd else upd,
      if writeOk price then errs else items.map Prod.snd ++ errs)

/-- The create block (`src/main.py` lines 1509-1549): one bulk call, then
per-item fallback on failure. -/
def screatesRun (bulkOk : Bool) (singleOk : κ → Bool) :
    List (Option Nat × ℚ × κ) → List SupplierCall × List κ × List κ
  | [] => ([], [], [])
  | first :: rest =>
    let l := first :: rest
    let records := l.map (fun r => (r.1, r.2.1))
    if bulkOk then
      ([SupplierCall.create records], l.map (fun r => r.2.2), [])
    else
      (SupplierCall.create records ::
          l.map (fun r => SupplierCall.create [(r.1, r.2.1)]),
        (l.filter (fun r => singleOk r.2.2)).map (fun r => r.2.2),
        (l.filter (fun r => !singleOk r.2.2)).map (fun r => r.2.2))

/-- `_batch_update_supplierinfo` (`src/main.py` lines 1427-1557), as a
function of the preloaded sellers map and per-call outcome oracles. -/
def batch_update_supplierinfo (products_data : List (κ × SupplierData))
    (product_info : List (κ × ProductInfoEntry))
    (existing_sellers : List (Nat × SellerInfo))
    (writeOk : ℚ → Bool) (bulkOk : Bool) (singleOk : κ → Bool) :
    SupplierResults κ × List SupplierCall :=
  let st := sphase1Go product_info products_data ⟨[], [], []⟩
  if st.template_ids.isEmpty then (⟨[], [], st.errors⟩, [])
  else
    let (toUpd, toCre) := spartition st.t2d existing_sellers st.template_ids
    let groups := groupByValue (toUpd.map (fun r => (r.2.1, (r.1, r.2.2))))
    let (wcalls, upd, uerrs) := supdatesRun writeOk groups
    let (ccalls, cre, cerrs) := screatesRun bulkOk singleOk toCre
    (⟨upd, cre, st.errors ++ uerrs ++ cerrs⟩, wcalls ++ ccalls)

theorem sphase1Go_t2d_sound (product_info : List (κ × ProductInfoEntry)) :
    ∀ (pd : List (κ × SupplierData)) (st : SState κ) (tid : Option Nat)
      (v : SupplierData × κ),
      dlookup tid (sphase1Go product_info pd st).t2d = some v →
      (∃ c' d', (c', d') ∈ pd ∧ ∃ i', dlookup c' product_info = some i' ∧
        i'.template_id = tid ∧ v = (d', c')) ∨ dlookup tid st.t2d = some v := by
  intro pd
  induction pd with
  | nil => intro st tid v h; right; exact h
  | cons pr rest ih =>
    intro st tid v h
    obtain ⟨code, data⟩ := pr
    rw [sphase1Go] at h
    cases hl : dlookup code product_info with
    | none =>
      rw [hl] at h
      rcases ih _ tid v h with ⟨c', d', hm, hrest⟩ | hst
      · exact Or.inl ⟨c', d', List.mem_cons_of_mem _ hm, hrest⟩
      · right; exact hst
    | some info =>
      rw [hl] at h
      simp only [] at h
      rcases ih _ tid v h with ⟨c', d', hm, hrest⟩ | hst
      · exact Or.inl ⟨c', d', List.mem_cons_of_mem _ hm, hrest⟩
      · by_cases ht : info.template_id = tid
        · rw [ht, dlookup_dinsert_self] at hst
          obtain rfl : (data, code) = v := by simpa using hst
          exact Or.inl ⟨code, data, List.mem_cons_self _ _, info, hl, ht, rfl⟩
        · rw [dlookup_dinsert_ne _ ht] at hst
          right; exact hst

theorem spartition_sound (t2d : List (Option Nat × (SupplierData × κ)))
    (existing_sellers : List (Nat × SellerInfo)) :
    ∀ (tids : List (Option Nat)) (r : Nat × ℚ × κ),
      r ∈ (spartition t2d existing_sellers tids).1 →
      ∃ tid ∈ tids, ∃ data code, dlookup tid t2d = some (data, code) ∧
        r.2.2 = code ∧ r.2.1 = data.precioCosto ∧
        ∃ t s', tid = some t ∧ dlookup t existing_sellers = some s' ∧
          r.1 = s'.id ∧ s'.price ≠ data.precioCosto := by
  intro tids
  induction tids with
  | nil => intro r h; simp [spartition] at h
  | cons tid rest ih =>
    intro r h
    rw [spartition] at h
    cases hl : dlookup tid t2d with
    | none =>
      rw [hl] at h
      simp only [] at h
      obtain ⟨t', ht', rest'⟩ := ih r h
      exact ⟨t', List.mem_cons_of_mem _ ht', rest'⟩
    | some v =>
      obtain ⟨data, code⟩ := v
      rw [hl] at h
      simp only [] at h
      cases htid : tid with
      | none =>
        rw [htid] at h
        simp only [] at h
        obtain ⟨t', ht', rest'⟩ := ih r h
        exact ⟨t', List.mem_cons_of_mem _ ht', rest'⟩
      | some t =>
        rw [htid] at h
        simp only [] at h
        cases hs : dlookup t existing_sellers with
        | none =>
          rw [hs] at h
          simp only [] at h
          obtain ⟨t', ht', rest'⟩ := ih r h
          exact ⟨t', List.mem_cons_of_mem _ ht', rest'⟩
        | some seller =>
          rw [hs] at h
          simp only [] at h
          by_cases hp : seller.price ≠ data.precioCosto
          · rw [if_pos hp] at h
            rcases List.mem_cons.mp h with h | h
            · subst h
              rw [htid] at hl
              exact ⟨some t, List.mem_cons_self _ _, data, code, hl, rfl, rfl,
                t, seller, rfl, hs, rfl, hp⟩
            · obtain ⟨t', ht', rest'⟩ := ih r h
              exact ⟨t', List.mem_cons_of_mem _ ht', rest'⟩
          · rw [if_neg hp] at h
            obtain ⟨t', ht', rest'⟩ := ih r h
            exact ⟨t', List.mem_cons_of_mem _ ht', rest'⟩

theorem spartition_empty (t2d : List (Option Nat × (SupplierData × κ)))
    (existing_sellers : List (Nat × SellerInfo)) :
    ∀ (tids : List (Option Nat)),
      (∀ tid ∈ tids, ∀ data code, dlookup tid t2d = some (data, code) →
        ∃ t s', tid = some t ∧ dlookup t existing_sellers = some s' ∧
          s'.price = data.precioCosto) →
      spartition t2d existing_sellers tids = ([], []) := by
  intro tids
  induction tids with
  | nil => intro _; rfl
  | cons tid rest ih =>
    intro h
    have hrest := ih (fun t ht => h t (List.mem_cons_of_mem _ ht))
    rw [spartition, hrest]
    cases hl : dlookup tid t2d with
    | none => rfl
    | some v =>
      obtain ⟨data, code⟩ := v
      obtain ⟨t, s', htid, hs, hp⟩ := h tid (List.mem_cons_self _ _) data code hl
      subst htid
      simp only []
      rw [hs]
      simp only []
      rw [if_neg (by simpa using hp)]

theorem supdatesRun_calls (writeOk : ℚ → Bool) :
    ∀ (groups : List (ℚ × List (Nat × κ))),
      (supdatesRun writeOk groups).1 =
        groups.map (fun g => SupplierCall.write (g.2.map Prod.fst) g.1) := by
  intro groups
  induction groups with
  | nil => rfl
  | cons g rest ih =>
    obtain ⟨price, items⟩ := g
    simp only [supdatesRun, List.map_cons]
    rw [← ih]

theorem supdatesRun_updated (writeOk : ℚ → Bool) :
    ∀ (groups : List (ℚ × List (Nat × κ))) (code : κ),
      code ∈ (supdatesRun writeOk groups).2.1 →
      ∃ g ∈ groups, ∃ it ∈ g.2, it.2 = code := by
  intro groups
  induction groups with
  | nil => intro code h; simp [supdatesRun] at h
  | cons g rest ih =>
    intro code h
    obtain ⟨price, items⟩ := g
    simp only [supdatesRun] at h
    by_cases hw : writeOk price = true
    · rw [if_pos hw] at h
      rcases List.mem_append.mp h with h | h
      · obtain ⟨it, hit, hc⟩ := List.mem_map.mp h
        exact ⟨(price, items), List.mem_cons_self _ _, it, hit, hc⟩
      · obtain ⟨g', hg', it, hit, hc⟩ := ih code h
        exact ⟨g', List.mem_cons_of_mem _ hg', it, hit, hc⟩
    · rw [if_neg hw] at h
      obtain ⟨g', hg', it, hit, hc⟩ := ih code h
      exact ⟨g', List.mem_cons_of_mem _ hg', it, hit, hc⟩

theorem screatesRun_all_create (bulkOk : Bool) (singleOk : κ → Bool) :
    ∀ (l : List (Option Nat × ℚ × κ)),
      ∀ call ∈ (screatesRun bulkOk singleOk l).1,
        ∃ recs, call = SupplierCall.create recs := by
  intro l call hc
  cases l with
  | nil => simp [screatesRun] at hc
  | cons first rest =>
    rw [screatesRun] at hc
    by_cases hb : bulkOk = true
    · rw [if_pos hb] at hc
      rw [List.mem_singleton] at hc
      exact ⟨_, hc⟩
    · rw [if_neg hb] at hc
      rcases List.mem_cons.mp hc with hc | hc
      · exact ⟨_, hc⟩
      · obtain ⟨r, _, hrc⟩ := List.mem_map.mp hc
        exact ⟨_, hrc.symm⟩

end BatchSupplier

theorem groupInsert_sound {V K : Type} [DecidableEq V] {L : List (V × K)} {v : V} {x : K} :
    ∀ {acc : List (V × List K)}, (∀ g ∈ acc, ∀ it ∈ g.2, (g.1, it) ∈ L) →
      (v, x) ∈ L → ∀ g ∈ groupInsert v x acc, ∀ it ∈ g.2, (g.1, it) ∈ L := by
  intro acc
  induction acc with
  | nil =>
    intro _ hx g hg it hit
    simp only [groupInsert, List.mem_singleton] at hg
    subst hg
    rw [List.mem_singleton] at hit
    subst hit
    exact hx
  | cons p rest ih =>
    intro h hx g hg it hit
    obtain ⟨v', ks⟩ := p
    rw [groupInsert] at hg
    by_cases hv : v' = v
    · rw [if_pos hv] at hg
      rcases List.mem_cons.mp hg with hg | hg
      · subst hg
        rcases List.mem_append.mp hit with hit | hit
        · exact h (v', ks) (List.mem_cons_self _ _) it hit
        · rw [List.mem_singleton] at hit
          subst hit
          rw [hv]
          exact hx
      · exact h g (List.mem_cons_of_mem _ hg) it hit
    · rw [if_neg hv] at hg
      rcases List.mem_cons.mp hg with hg | hg
      · subst hg
        exact h (v', ks) (List.mem_cons_self _ _) it hit
      · exact ih (fun g' hg' => h g' (List.mem_cons_of_mem _ hg')) hx g hg it hit

theorem groupByValue_sound {V K : Type} [DecidableEq V] (l : List (V × K)) :
    ∀ g ∈ groupByValue l, ∀ it ∈ g.2, (g.1, it) ∈ l := by
  suffices h : ∀ (l' : List (V × K)) (acc : List (V × List K)),
      (∀ p ∈ l', p ∈ l) → (∀ g ∈ acc, ∀ it ∈ g.2, (g.1, it) ∈ l) →
      ∀ g ∈ l'.foldl (fun acc p => groupInsert p.1 p.2 acc) acc, ∀ it ∈ g.2, (g.1, it) ∈ l by
    exact h l [] (fun p hp => hp) (by simp)
  intro l'
  induction l' with
  | nil => intro acc _ hacc; simpa using hacc
  | cons p rest ih =>
    intro acc hsub hacc
    simp only [List.foldl_cons]
    refine ih _ (fun q hq => hsub q (List.mem_cons_of_mem _ hq)) ?_
    exact groupInsert_sound hacc (by
      simpa using hsub p (List.mem_cons_self _ _))

namespace V2Stock

/-- A cached product of the v2 synchronizer (`get_odoo_products`). -/
structure V2Info where
  product_id : Nat
  is_storable : Bool
  deriving DecidableEq

/-- A quant as read back from the stock location. -/
structure V2Quant where
  id : Nat
  product_id : Nat
  quantity : Int
  deriving DecidableEq

/-- A mutating RPC of the v2 stock pass (`update_odoo_stock`,
`src/sv_scraper_v2.py`); the location id is a constant. -/
inductive V2Call where
  | write (quant_ids : List Nat) (quantity : Int)
  | create (records : List (Nat × Int))
  deriving DecidableEq

structure V2Results (κ : Type) where
  updated : Nat
  created : Nat
  skipped_non_storable : Nat
  errors : List κ
  deriving DecidableEq

/-- `existing_quants[q['product_id'][0]] = q` (`src/sv_scraper_v2.py`
lines 567-568). -/
def buildExisting (quants : List V2Quant) : List (Nat × V2Quant) :=
  quants.foldl (fun m q => dinsert q.product_id q m) []

variable {κ : Type} [DecidableEq κ]

/-- The partition loop (`src/sv_scraper_v2.py` lines 576-593): skip
unknown codes and non-storable products; update only when the existing
quant's quantity differs from the new stock; otherwise create.  Returns
(to_update, to_create, skipped_non_storable count). -/
def v2partition (product_codes : List (κ × V2Info))
    (existing : List (Nat × V2Quant)) :
    List (κ × Int) → List (Nat × Int × κ) × List (Nat × Int × κ) × Nat
  | [] => ([], [], 0)
  | (code, stock) :: rest =>
    let (u, c, s) := v2partition product_codes existing rest
    match dlookup code product_codes with
    | none => (u, c, s)
    | some info =>
      if !info.is_storable then (u, c, s + 1)
      else
        match dlookup info.product_id existing with
        | some quant =>
          if quant.quantity ≠ stock then ((quant.id, stock, code) :: u, c, s)
          else (u, c, s)
        | none => (u, (info.product_id, stock, code) :: c, s)

/-- The grouped update block (`src/sv_scraper_v2.py` lines 614-636):
one write call per quantity group (`writeOk` keyed by the quantity). -/
def v2updatesRun (writeOk : Int → Bool) :
    List (Int × List (Nat × κ)) → List V2Call × Nat × List κ
  | [] => ([], 0, [])
  | (quantity, items) :: rest =>
    let (calls, upd, errs) := v2updatesRun writeOk rest
    (V2Call.write (items.map Prod.fst) quantity :: calls,
      if writeOk quantity then items.length + upd else upd,
      if writeOk quantity then errs else items.map Prod.snd ++ errs)

/-- The chunked create block (`src/sv_scraper_v2.py` lines 641-681): one
bulk call per 100-record chunk, with per-item fallback inside a failed
chunk only. -/
def v2createsRun (chunkOk : List (Nat × Int) → Bool) (singleOk : Nat → Bool) :
    List (List (Nat × Int × κ)) → List V2Call × Nat × List κ
  | [] => ([], 0, [])
  | chunk :: rest =>
    let (calls, cre, errs) := v2createsRun chunkOk singleOk rest
    let records := chunk.map (fun r => (r.1, r.2.1))
    if chunkOk records then
      (V2Call.create records :: calls, chunk.length + cre, errs)
    else
      (V2Call.create records ::
          (chunk.map (fun r => V2Call.create [(r.1, r.2.1)]) ++ calls),
        (chunk.filter (fun r => singleOk r.1)).length + cre,
        (chunk.filter (fun r => !singleOk r.1)).map (fun r => r.2.2) ++ errs)

/-- `SVScraperV2.update_odoo_stock` (`src/sv_scraper_v2.py` lines
542-684) with `dry_run = False`, as a function of the quant read response
and per-call outcome oracles. -/
def update_odoo_stock (product_codes : List (κ × V2Info))
    (stock_results : List (κ × Int)) (quants : List V2Quant)
    (writeOk : Int → Bool) (chunkOk : List (Nat × Int) → Bool)
    (singleOk : Nat → Bool) : V2Results κ × List V2Call :=
  let existing := buildExisting quants
  let (toUpd, toCre, skips) := v2partition product_codes existing stock_results
  let groups := groupByValue (toUpd.map (fun r => (r.2.1, (r.1, r.2.2))))
  let (wcalls, updCount, werrs) := v2updatesRun writeOk groups
  let (ccalls, creCount, cerrs) :=
    v2createsRun chunkOk singleOk (chunksOf 100 toCre)
  (⟨updCount, creCount, skips, werrs ++ cerrs⟩, wcalls ++ ccalls)

theorem v2partition_sound (product_codes : List (κ × V2Info))
    (existing : List (Nat × V2Quant)) :
    ∀ (sr : List (κ × Int)) (r : Nat × Int × κ),
      r ∈ (v2partition product_codes existing sr).1 →
      ∃ p ∈ sr, ∃ i, dlookup p.1 product_codes = some i ∧ i.is_storable = true ∧
        ∃ q, dlookup i.product_id existing = some q ∧ r.1 = q.id ∧
          q.quantity ≠ p.2 ∧ r.2.1 = p.2 ∧ r.2.2 = p.1 := by
  intro sr
  induction sr with
  | nil => intro r h; simp [v2partition] at h
  | cons p rest ih =>
    intro r h
    obtain ⟨code, stock⟩ := p
    rw [v2partition] at h
    cases hl : dlookup code product_codes with
    | none =>
      rw [hl] at h
      simp only [] at h
      obtain ⟨p', hp', rest'⟩ := ih r h
      exact ⟨p', List.mem_cons_of_mem _ hp', rest'⟩
    | some info =>
      rw [hl] at h
      simp only [] at h
      by_cases hs : info.is_storable = true
      · rw [if_neg (by simp [hs])] at h
        cases hq : dlookup info.product_id existing with
        | none =>
          rw [hq] at h
          simp only [] at h
          obtain ⟨p', hp', rest'⟩ := ih r h
          exact ⟨p', List.mem_cons_of_mem _ hp', rest'⟩
        | some quant =>
          rw [hq] at h
          simp only [] at h
          by_cases hne : quant.quantity ≠ stock
          · rw [if_pos hne] at h
            rcases List.mem_cons.mp h with h | h
            · subst h
              exact ⟨(code, stock), List.mem_cons_self _ _, info, hl, hs,
                quant, hq, rfl, hne, rfl, rfl⟩
            · obtain ⟨p', hp', rest'⟩ := ih r h
              exact ⟨p', List.mem_cons_of_mem _ hp', rest'⟩
          · rw [if_neg hne] at h
            obtain ⟨p', hp', rest'⟩ := ih r h
            exact ⟨p', List.mem_cons_of_mem _ hp', rest'⟩
      · have hs' : info.is_storable = false := by
          cases hb : info.is_storable
          · rfl
          · exact absurd hb hs
        rw [if_pos (by simp [hs'])] at h
        obtain ⟨p', hp', rest'⟩ := ih r h
        exact ⟨p', List.mem_cons_of_mem _ hp', rest'⟩

theorem v2partition_empty (product_codes : List (κ × V2Info))
    (existing : List (Nat × V2Quant)) :
    ∀ (sr : List (κ × Int)),
      (∀ p ∈ sr, ∀ i, dlookup p.1 product_codes = some i → i.is_storable = true →
        ∃ q, dlookup i.product_id existing = some q ∧ q.quantity = p.2) →
      (v2partition product_codes existing sr).1 = [] ∧
        (v2partition product_codes existing sr).2.1 = [] := by
  intro sr
  induction sr with
  | nil => intro _; exact ⟨rfl, rfl⟩
  | cons p rest ih =>
    intro h
    obtain ⟨code, stock⟩ := p
    obtain ⟨h1, h2⟩ := ih (fun q hq => h q (List.mem_cons_of_mem _ hq))
    rw [v2partition]
    cases hl : dlookup code product_codes with
    | none => simp only []; exact ⟨h1, h2⟩
    | some info =>
      simp only []
      by_cases hs : info.is_storable = true
      · rw [if_neg (by simp [hs])]
        obtain ⟨q, hq, hqq⟩ := h (code, stock) (List.mem_cons_self _ _) info hl hs
        rw [hq]
        simp only []
        rw [if_neg (by simpa using hqq)]
        exact ⟨h1, h2⟩
      · have hs' : info.is_storable = false := by
          cases hb : info.is_storable
          · rfl
          · exact absurd hb hs
        rw [if_pos (by simp [hs'])]
        exact ⟨h1, h2⟩

theorem v2updatesRun_calls (writeOk : Int → Bool) :
    ∀ (groups : List (Int × List (Nat × κ))),
      (v2updatesRun writeOk groups).1 =
        groups.map (fun g => V2Call.write (g.2.map Prod.fst) g.1) := by
  intro groups
  induction groups with
  | nil => rfl
  | cons g rest ih =>
    obtain ⟨quantity, items⟩ := g
    simp only [v2updatesRun, List.map_cons]
    rw [← ih]

theorem v2createsRun_bound (chunkOk : List (Nat × Int) → Bool) (singleOk : Nat → Bool) :
    ∀ (chunks : List (List (Nat × Int × κ))), (∀ ch ∈ chunks, ch.length ≤ 100) →
      ∀ call ∈ (v2createsRun chunkOk singleOk chunks).1,
        ∃ recs, call = V2Call.create recs ∧ recs.length ≤ 100 := by
  intro chunks
  induction chunks with
  | nil => intro _ call h; simp [v2createsRun] at h
  | cons chunk rest ih =>
    intro hb call h
    have hlen : chunk.length ≤ 100 := hb chunk (List.mem_cons_self _ _)
    have hrest := ih (fun ch hch => hb ch (List.mem_cons_of_mem _ hch))
    rw [v2createsRun] at h
    rcases hr : v2createsRun chunkOk singleOk rest with ⟨calls, cre, errs⟩
    rw [hr] at h hrest
    simp only [] at h
    by_cases hc : chunkOk (chunk.map (fun r => (r.1, r.2.1))) = true
    · rw [if_pos hc] at h
      rcases List.mem_cons.mp h with h | h
      · exact ⟨_, h, by simpa using hlen⟩
      · exact hrest call h
    · rw [if_neg hc] at h
      rcases List.mem_cons.mp h with h | h
      · exact ⟨_, h, by simpa using hlen⟩
      · rcases List.mem_append.mp h with h | h
        · obtain ⟨r, _, hrc⟩ := List.mem_map.mp h
          exact ⟨_, hrc.symm, by simp⟩
        · exact hrest call h

end V2Stock

/-- The prices carried by the `write` calls of a supplier-info call trace. -/
def supplierWritePrices (calls : List BatchSupplier.SupplierCall) : List ℚ :=
  calls.filterMap (fun c =>
    match c with
    | BatchSupplier.SupplierCall.write _ p => some p
    | BatchSupplier.SupplierCall.create _ => none)

/-- The quantities carried by the `write` calls of a v2 stock call trace. -/
def v2WriteQuantities (calls : List V2Stock.V2Call) : List Int :=
  calls.filterMap (fun c =>
    match c with
    | V2Stock.V2Call.write _ q => some q
    | V2Stock.V2Call.create _ => none)

theorem batch_update_supplierinfo_eq {κ : Type} [DecidableEq κ]
    (pd : List (κ × BatchSupplier.SupplierData))
    (pi : List (κ × BatchStock.ProductInfoEntry))
    (sellers : List (Nat × BatchSupplier.SellerInfo))
    (writeOk : ℚ → Bool) (bulkOk : Bool) (singleOk : κ → Bool) :
    BatchSupplier.batch_update_supplierinfo pd pi sellers writeOk bulkOk singleOk =
      if (BatchSupplier.sphase1Go pi pd ⟨[], [], []⟩).template_ids.isEmpty then
        (⟨[], [], (BatchSupplier.sphase1Go pi pd ⟨[], [], []⟩).errors⟩, [])
      else
        (⟨(BatchSupplier.supdatesRun writeOk (groupByValue
            (((BatchSupplier.spartition (BatchSupplier.sphase1Go pi pd ⟨[], [], []⟩).t2d
              sellers (BatchSupplier.sphase1Go pi pd ⟨[], [], []⟩).template_ids).1).map
                (fun r => (r.2.1, (r.1, r.2.2)))))).2.1,
          (BatchSupplier.screatesRun bulkOk singleOk
            (BatchSupplier.spartition (BatchSupplier.sphase1Go pi pd ⟨[], [], []⟩).t2d
              sellers (BatchSupplier.sphase1Go pi pd ⟨[], [], []⟩).template_ids).2).2.1,
          (BatchSupplier.sphase1Go pi pd ⟨[], [], []⟩).errors ++
            (BatchSupplier.supdatesRun writeOk (groupByValue
              (((BatchSupplier.spartition (BatchSupplier.sphase1Go pi pd ⟨[], [], []⟩).t2d
                sellers (BatchSupplier.sphase1Go pi pd ⟨[], [], []⟩).template_ids).1).map
                  (fun r => (r.2.1, (r.1, r.2.2)))))).2.2 ++
            (BatchSupplier.screatesRun bulkOk singleOk
              (BatchSupplier.spartition (BatchSupplier.sphase1Go pi pd ⟨[], [], []⟩).t2d
                sellers (BatchSupplier.sphase1Go pi pd ⟨[], [], []⟩).template_ids).2).2.2⟩,
          (BatchSupplier.supdatesRun writeOk (groupByValue
            (((BatchSupplier.spartition (BatchSupplier.sphase1Go pi pd ⟨[], [], []⟩).t2d
              sellers (BatchSupplier.sphase1Go pi pd ⟨[], [], []⟩).template_ids).1).map
                (fun r => (r.2.1, (r.1, r.2.2)))))).1 ++
          (BatchSupplier.screatesRun bulkOk singleOk
            (BatchSupplier.spartition (BatchSupplier.sphase1Go pi pd ⟨[], [], []⟩).t2d
              sellers (BatchSupplier.sphase1Go pi pd ⟨[], [], []⟩).template_ids).2).1) := rfl

theorem update_odoo_stock_eq {κ : Type} [DecidableEq κ]
    (pc : List (κ × V2Stock.V2Info)) (sr : List (κ × Int)) (qs : List V2Stock.V2Quant)
    (writeOk : Int → Bool) (chunkOk : List (Nat × Int) → Bool) (singleOk : Nat → Bool) :
    V2Stock.update_odoo_stock pc sr qs writeOk chunkOk singleOk =
      (⟨(V2Stock.v2updatesRun writeOk (groupByValue
          (((V2Stock.v2partition pc (V2Stock.buildExisting qs) sr).1).map
            (fun r => (r.2.1, (r.1, r.2.2)))))).2.1,
        (V2Stock.v2createsRun chunkOk singleOk
          (chunksOf 100
            (V2Stock.v2partition pc (V2Stock.buildExisting qs) sr).2.1)).2.1,
        (V2Stock.v2partition pc (V2Stock.buildExisting qs) sr).2.2,
        (V2Stock.v2updatesRun writeOk (groupByValue
          (((V2Stock.v2partition pc (V2Stock.buildExisting qs) sr).1).map
            (fun r => (r.2.1, (r.1, r.2.2)))))).2.2 ++
          (V2Stock.v2createsRun chunkOk singleOk
            (chunksOf 100
              (V2Stock.v2partition pc (V2Stock.buildExisting qs) sr).2.1)).2.2⟩,
        (V2Stock.v2updatesRun writeOk (groupByValue
          (((V2Stock.v2partition pc (V2Stock.buildExisting qs) sr).1).map
            (fun r => (r.2.1, (r.1, r.2.2)))))).1 ++
        (V2Stock.v2createsRun chunkOk singleOk
          (chunksOf 100
            (V2Stock.v2partition pc (V2Stock.buildExisting qs) sr).2.1)).1) := rfl

theorem supplierWritePrices_append (a b : List BatchSupplier.SupplierCall) :
    supplierWritePrices (a ++ b) = supplierWritePrices a ++ supplierWritePrices b :=
  List.filterMap_append a b _

theorem supplierWritePrices_groups {κ : Type} [DecidableEq κ] (writeOk : ℚ → Bool) :
    ∀ (groups : List (ℚ × List (Nat × κ))),
      supplierWritePrices (BatchSupplier.supdatesRun writeOk groups).1 =
        groups.map Prod.fst := by
  intro groups
  rw [BatchSupplier.supdatesRun_calls]
  induction groups with
  | nil => rfl
  | cons g rest ih =>
    simp only [List.map_cons, supplierWritePrices, List.filterMap_cons]
    simp only [supplierWritePrices] at ih
    rw [ih]

theorem supplierWritePrices_creates {κ : Type} [DecidableEq κ] (bulkOk : Bool)
    (singleOk : κ → Bool) (l : List (Option Nat × ℚ × κ)) :
    supplierWritePrices (BatchSupplier.screatesRun bulkOk singleOk l).1 = [] := by
  rw [supplierWritePrices, List.filterMap_eq_nil]
  intro call hc
  obtain ⟨recs, hr⟩ := BatchSupplier.screatesRun_all_create bulkOk singleOk l call hc
  rw [hr]

theorem v2WriteQuantities_append (a b : List V2Stock.V2Call) :
    v2WriteQuantities (a ++ b) = v2WriteQuantities a ++ v2WriteQuantities b :=
  List.filterMap_append a b _

theorem v2WriteQuantities_groups {κ : Type} [DecidableEq κ] (writeOk : Int → Bool) :
    ∀ (groups : List (Int × List (Nat × κ))),
      v2WriteQuantities (V2Stock.v2updatesRun writeOk groups).1 =
        groups.map Prod.fst := by
  intro groups
  rw [V2Stock.v2updatesRun_calls]
  induction groups with
  | nil => rfl
  | cons g rest ih =>
    simp only [List.map_cons, v2WriteQuantities, List.filterMap_cons]
    simp only [v2WriteQuantities] at ih
    rw [ih]

theorem v2WriteQuantities_creates {κ : Type} [DecidableEq κ]
    (chunkOk : List (Nat × Int) → Bool) (singleOk : Nat → Bool)
    (chunks : List (List (Nat × Int × κ))) (hb : ∀ ch ∈ chunks, ch.length ≤ 100) :
    v2WriteQuantities (V2Stock.v2createsRun chunkOk singleOk chunks).1 = [] := by
  rw [v2WriteQuantities, List.filterMap_eq_nil]
  intro call hc
  obtain ⟨recs, hr, _⟩ := V2Stock.v2createsRun_bound chunkOk singleOk chunks hb call hc
  rw [hr]

/-- Claim C7 (amended): the supplier-info pass and the v2 stock pass group
their update partitions by the value being written and issue exactly one
bulk write call per distinct value (write-call values are duplicate-free
and cover exactly the partition's values); the main stock pass
(`src/main.py` lines 1341-1352) instead issues one write call per update
record. -/
theorem C7_value_grouping {κ : Type} [DecidableEq κ]
    (writeOk : Nat → Bool) (toUpd : List (Nat × Int × κ))
    (pd : List (κ × BatchSupplier.SupplierData))
    (pi : List (κ × BatchStock.ProductInfoEntry))
    (sellers : List (Nat × BatchSupplier.SellerInfo))
    (swOk : ℚ → Bool) (sbOk : Bool) (ssOk : κ → Bool)
    (pc : List (κ × V2Stock.V2Info)) (sr : List (κ × Int)) (qs : List V2Stock.V2Quant)
    (vwOk : Int → Bool) (vcOk : List (Nat × Int) → Bool) (vsOk : Nat → Bool) :
    (BatchStock.updatesRun writeOk toUpd).1 =
      toUpd.map (fun r => BatchStock.StockCall.write r.1 r.2.1)
    ∧ (supplierWritePrices
        (BatchSupplier.batch_update_supplierinfo pd pi sellers swOk sbOk ssOk).2).Nodup
    ∧ (∀ p : ℚ, p ∈ supplierWritePrices
        (BatchSupplier.batch_update_supplierinfo pd pi sellers swOk sbOk ssOk).2 ↔
        p ∈ ((BatchSupplier.spartition (BatchSupplier.sphase1Go pi pd ⟨[], [], []⟩).t2d
          sellers (BatchSupplier.sphase1Go pi pd ⟨[], [], []⟩).template_ids).1.map
            (fun r => r.2.1)))
    ∧ (v2WriteQuantities (V2Stock.update_odoo_stock pc sr qs vwOk vcOk vsOk).2).Nodup
    ∧ (∀ q : Int, q ∈ v2WriteQuantities
        (V2Stock.update_odoo_stock pc sr qs vwOk vcOk vsOk).2 ↔
        q ∈ ((V2Stock.v2partition pc (V2Stock.buildExisting qs) sr).1.map
          (fun r => r.2.1))) := by
  have hsup : supplierWritePrices
      (BatchSupplier.batch_update_supplierinfo pd pi sellers swOk sbOk ssOk).2 =
      if (BatchSupplier.sphase1Go pi pd ⟨[], [], []⟩).template_ids.isEmpty then []
      else (groupByValue
        (((BatchSupplier.spartition (BatchSupplier.sphase1Go pi pd ⟨[], [], []⟩).t2d
          sellers (BatchSupplier.sphase1Go pi pd ⟨[], [], []⟩).template_ids).1).map
            (fun r => (r.2.1, (r.1, r.2.2))))).map Prod.fst := by
    rw [batch_update_supplierinfo_eq]
    by_cases he : (BatchSupplier.sphase1Go pi pd ⟨[], [], []⟩).template_ids.isEmpty
    · rw [if_pos he, if_pos he]
      rfl
    · rw [if_neg he, if_neg he]
      simp only []
      rw [supplierWritePrices_append, supplierWritePrices_groups,
        supplierWritePrices_creates, List.append_nil]
  have hv2 : v2WriteQuantities (V2Stock.update_odoo_stock pc sr qs vwOk vcOk vsOk).2 =
      (groupByValue (((V2Stock.v2partition pc (V2Stock.buildExisting qs) sr).1).map
        (fun r => (r.2.1, (r.1, r.2.2))))).map Prod.fst := by
    rw [update_odoo_stock_eq]
    simp only []
    rw [v2WriteQuantities_append, v2WriteQuantities_groups,
      v2WriteQuantities_creates _ _ _ (chunksOf_length_le 100 _),
      List.append_nil]
  refine ⟨BatchStock.updatesRun_calls writeOk toUpd, ?_, ?_, ?_, ?_⟩
  · rw [hsup]
    by_cases he : (BatchSupplier.sphase1Go pi pd ⟨[], [], []⟩).template_ids.isEmpty
    · simp [he]
    · rw [if_neg he]
      exact groupByValue_nodup_keys _
  · intro p
    rw [hsup]
    by_cases he : (BatchSupplier.sphase1Go pi pd ⟨[], [], []⟩).template_ids.isEmpty
    · rw [if_pos he]
      rw [List.isEmpty_iff] at he
      rw [he]
      simp [BatchSupplier.spartition]
    · rw [if_neg he]
      have := groupByValue_mem_keys
        (((BatchSupplier.spartition (BatchSupplier.sphase1Go pi pd ⟨[], [], []⟩).t2d
          sellers (BatchSupplier.sphase1Go pi pd ⟨[], [], []⟩).template_ids).1).map
            (fun r => (r.2.1, (r.1, r.2.2)))) p
      rw [show dkeys (groupByValue
          (((BatchSupplier.spartition (BatchSupplier.sphase1Go pi pd ⟨[], [], []⟩).t2d
            sellers (BatchSupplier.sphase1Go pi pd ⟨[], [], []⟩).template_ids).1).map
              (fun r => (r.2.1, (r.1, r.2.2))))) = (groupByValue
          (((BatchSupplier.spartition (BatchSupplier.sphase1Go pi pd ⟨[], [], []⟩).t2d
            sellers (BatchSupplier.sphase1Go pi pd ⟨[], [], []⟩).template_ids).1).map
              (fun r => (r.2.1, (r.1, r.2.2))))).map Prod.fst from rfl] at this
    -- align the two `map` forms
      rw [this]
      simp [List.map_map, Function.comp]
  · rw [hv2]
    exact groupByValue_nodup_keys _
  · intro q
    rw [hv2]
    have := groupByValue_mem_keys
      (((V2Stock.v2partition pc (V2Stock.buildExisting qs) sr).1).map
        (fun r => (r.2.1, (r.1, r.2.2)))) q
    rw [show dkeys (groupByValue
        (((V2Stock.v2partition pc (V2Stock.buildExisting qs) sr).1).map
          (fun r => (r.2.1, (r.1, r.2.2))))) = (groupByValue
        (((V2Stock.v2partition pc (V2Stock.buildExisting qs) sr).1).map
          (fun r => (r.2.1, (r.1, r.2.2))))).map Prod.fst from rfl] at this
    rw [this]
    simp [List.map_map, Function.comp]

/-- Claim C10: when the target record already holds the value to be
written — the cached seller price equals the new cost price, or (v2) the
cached quant quantity equals the new stock — no write call is issued for
that record and it is not reported as updated; consequently a re-run with
unchanged data issues no update writes at all.  The side conditions say
the record is the only input row resolving to its template (resp.
product) and that seller (resp. quant) ids are unique. -/
theorem C10_skip_equal_values {κ : Type} [DecidableEq κ]
    (pd : List (κ × BatchSupplier.SupplierData))
    (pi : List (κ × BatchStock.ProductInfoEntry))
    (sellers : List (Nat × BatchSupplier.SellerInfo))
    (swOk : ℚ → Bool) (sbOk : Bool) (ssOk : κ → Bool)
    (c : κ) (d : BatchSupplier.SupplierData) (info : BatchStock.ProductInfoEntry)
    (t : Nat) (s : BatchSupplier.SellerInfo)
    (hmem : (c, d) ∈ pd)
    (hinfo : dlookup c pi = some info) (ht : info.template_id = some t)
    (hs : dlookup t sellers = some s) (hp : s.price = d.precioCosto)
    (huniq : ∀ p ∈ pd, ∀ i', dlookup p.1 pi = some i' →
      i'.template_id = some t → p = (c, d))
    (hsid : ∀ p1 ∈ sellers, ∀ p2 ∈ sellers, p1.2.id = p2.2.id → p1.1 = p2.1)
    (pc : List (κ × V2Stock.V2Info)) (sr : List (κ × Int)) (qs : List V2Stock.V2Quant)
    (vwOk : Int → Bool) (vcOk : List (Nat × Int) → Bool) (vsOk : Nat → Bool)
    (c2 : κ) (stock : Int) (i2 : V2Stock.V2Info) (q2 : V2Stock.V2Quant)
    (hmem2 : (c2, stock) ∈ sr) (hinfo2 : dlookup c2 pc = some i2)
    (hq2 : dlookup i2.product_id (V2Stock.buildExisting qs) = some q2)
    (heq2 : q2.quantity = stock)
    (huniq2 : ∀ p ∈ sr, ∀ i', dlookup p.1 pc = some i' →
      i'.product_id = i2.product_id → p = (c2, stock))
    (hqid : ∀ p1 ∈ V2Stock.buildExisting qs, ∀ p2 ∈ V2Stock.buildExisting qs,
      p1.2.id = p2.2.id → p1.1 = p2.1) :
    c ∉ (BatchSupplier.batch_update_supplierinfo pd pi sellers swOk sbOk ssOk).1.updated
    ∧ (∀ ids p, BatchSupplier.SupplierCall.write ids p ∈
        (BatchSupplier.batch_update_supplierinfo pd pi sellers swOk sbOk ssOk).2 →
        s.id ∉ ids)
    ∧ (∀ ids q, V2Stock.V2Call.write ids q ∈
        (V2Stock.update_odoo_stock pc sr qs vwOk vcOk vsOk).2 →
        q2.id ∉ ids)
    ∧ ((∀ p ∈ pd, ∀ i', dlookup p.1 pi = some i' → ∃ t' s',
          i'.template_id = some t' ∧ dlookup t' sellers = some s' ∧
          s'.price = p.2.precioCosto) →
        (BatchSupplier.batch_update_supplierinfo pd pi sellers swOk sbOk ssOk).2 = []
        ∧ (BatchSupplier.batch_update_supplierinfo pd pi sellers swOk sbOk ssOk).1.updated = [])
    ∧ ((∀ p ∈ sr, ∀ i', dlookup p.1 pc = some i' → i'.is_storable = true →
          ∃ q, dlookup i'.product_id (V2Stock.buildExisting qs) = some q ∧
            q.quantity = p.2) →
        (V2Stock.update_odoo_stock pc sr qs vwOk vcOk vsOk).2 = []
        ∧ (V2Stock.update_odoo_stock pc sr qs vwOk vcOk vsOk).1.updated = 0) := by
  -- abbreviations for the supplier pass internals
  set st := BatchSupplier.sphase1Go pi pd ⟨[], [], []⟩ with hst
  -- no update record of the supplier partition carries code c or seller s
  have hkey : ∀ r ∈ (BatchSupplier.spartition st.t2d sellers st.template_ids).1,
      r.2.2 ≠ c ∧ r.1 ≠ s.id := by
    intro r hr
    obtain ⟨tid, _, data, code, hl, hcode, _, t', s', htid, hs', hrid, hne⟩ :=
      BatchSupplier.spartition_sound st.t2d sellers st.template_ids r hr
    rcases BatchSupplier.sphase1Go_t2d_sound pi pd ⟨[], [], []⟩ tid (data, code) hl with
      ⟨c', d', hm, i', hli', hti', hv⟩ | habs
    swap
    · simp [dlookup] at habs
    have hd' : data = d' := congrArg Prod.fst hv
    have hc' : code = c' := congrArg Prod.snd hv
    by_cases hteq : tid = some t
    · exfalso
      -- the template is t, so this is the pair (c, d) and its seller is s
      have ht'eq : t' = t := by
        rw [hteq] at htid
        exact (Option.some.inj htid).symm
      have hseq : s' = s := by
        rw [ht'eq, hs] at hs'
        exact (Option.some.inj hs').symm
      have hpair := huniq (c', d') hm i' hli' (by rw [hti', hteq])
      have hdd : d' = d := congrArg Prod.snd hpair
      apply hne
      rw [hseq, hd', hdd, hp]
    · constructor
      · intro hcc
        apply hteq
        have hcc' : c' = c := by rw [← hc', ← hcode, hcc]
        rw [hcc', hinfo] at hli'
        have : i' = info := (Option.some.inj hli').symm
        rw [← hti', this, ht]
      · intro hrs
        apply hteq
        have hm1 : (t', s') ∈ sellers := dlookup_some_mem hs'
        have hm2 : (t, s) ∈ sellers := dlookup_some_mem hs
        have ht'eq : t' = t := hsid (t', s') hm1 (t, s) hm2 (by rw [← hrid, hrs])
        rw [htid, ht'eq]
  -- no update record of the v2 partition carries the quant of (c2, stock)
  have hkey2 : ∀ r ∈ (V2Stock.v2partition pc (V2Stock.buildExisting qs) sr).1,
      r.1 ≠ q2.id := by
    intro r hr hqq
    obtain ⟨p, hpm, i, hli, _, q, hlq, hrid, hneq, hq1, _⟩ :=
      V2Stock.v2partition_sound pc (V2Stock.buildExisting qs) sr r hr
    have hm1 : (i.product_id, q) ∈ V2Stock.buildExisting qs := dlookup_some_mem hlq
    have hm2 : (i2.product_id, q2) ∈ V2Stock.buildExisting qs := dlookup_some_mem hq2
    have hpe : i.product_id = i2.product_id :=
      hqid (i.product_id, q) hm1 (i2.product_id, q2) hm2 (by
        show q.id = q2.id
        rw [← hrid, hqq])
    have hpair := huniq2 p hpm i hli hpe
    rw [hpe, hq2] at hlq
    have hqeq : q = q2 := (Option.some.inj hlq).symm
    apply hneq
    rw [hqeq, heq2]
    exact (congrArg Prod.snd hpair).symm ▸ rfl
  refine ⟨?_, ?_, ?_, ?_, ?_⟩
  · -- c is never reported updated by the supplier pass
    rw [batch_update_supplierinfo_eq, ← hst]
    by_cases he : st.template_ids.isEmpty
    · rw [if_pos he]
      simp
    · rw [if_neg he]
      simp only []
      intro hc
      obtain ⟨g, hg, it, hit, hitc⟩ := BatchSupplier.supdatesRun_updated swOk _ c hc
      have hsound := groupByValue_sound _ g hg it hit
      obtain ⟨r, hr, hrp⟩ := List.mem_map.mp hsound
      refine (hkey r hr).1 ?_
      have h2 : (r.1, r.2.2) = it := congrArg Prod.snd hrp
      rw [← h2] at hitc
      exact hitc
  · -- no supplier write call carries s.id
    rw [batch_update_supplierinfo_eq, ← hst]
    by_cases he : st.template_ids.isEmpty
    · rw [if_pos he]
      intro ids p hcall
      simp at hcall
    · rw [if_neg he]
      simp only []
      intro ids p hcall hsin
      rcases List.mem_append.mp hcall with hcall | hcall
      · rw [BatchSupplier.supdatesRun_calls] at hcall
        obtain ⟨g, hg, hgw⟩ := List.mem_map.mp hcall
        have hids : g.2.map Prod.fst = ids := by
          injection hgw
        rw [← hids] at hsin
        obtain ⟨it, hit, hits⟩ := List.mem_map.mp hsin
        have hsound := groupByValue_sound _ g hg it hit
        obtain ⟨r, hr, hrp⟩ := List.mem_map.mp hsound
        refine (hkey r hr).2 ?_
        have h2 : (r.1, r.2.2) = it := congrArg Prod.snd hrp
        rw [← h2] at hits
        exact hits
      · obtain ⟨recs, habs⟩ :=
          BatchSupplier.screatesRun_all_create sbOk ssOk _ _ hcall
        simp at habs
  · -- no v2 write call carries q2.id
    rw [update_odoo_stock_eq]
    simp only []
    intro ids q hcall hqin
    rcases List.mem_append.mp hcall with hcall | hcall
    · rw [V2Stock.v2updatesRun_calls] at hcall
      obtain ⟨g, hg, hgw⟩ := List.mem_map.mp hcall
      have hids : g.2.map Prod.fst = ids := by
        injection hgw
      rw [← hids] at hqin
      obtain ⟨it, hit, hits⟩ := List.mem_map.mp hqin
      have hsound := groupByValue_sound _ g hg it hit
      obtain ⟨r, hr, hrp⟩ := List.mem_map.mp hsound
      refine hkey2 r hr ?_
      have h2 : (r.1, r.2.2) = it := congrArg Prod.snd hrp
      rw [← h2] at hits
      exact hits
    · obtain ⟨recs, habs, _⟩ := V2Stock.v2createsRun_bound vcOk vsOk _
        (chunksOf_length_le 100 _) _ hcall
      simp at habs
  · -- supplier re-run with unchanged data: no calls, nothing updated
    intro hall
    have hsp : BatchSupplier.spartition st.t2d sellers st.template_ids = ([], []) := by
      apply BatchSupplier.spartition_empty
      intro tid _ data code hl
      rcases BatchSupplier.sphase1Go_t2d_sound pi pd ⟨[], [], []⟩ tid (data, code) hl with
        ⟨c', d', hm, i', hli', hti', hv⟩ | habs
      · obtain ⟨t', s', hti'', hs', hp'⟩ := hall (c', d') hm i' hli'
        refine ⟨t', s', by rw [← hti', hti''], hs', ?_⟩
        have hd' : data = d' := congrArg Prod.fst hv
        rw [hp', ← hd']
      · simp [dlookup] at habs
    constructor
    · rw [batch_update_supplierinfo_eq, ← hst]
      by_cases he : st.template_ids.isEmpty
      · rw [if_pos he]
      · rw [if_neg he]
        simp only []
        rw [hsp]
        rfl
    · rw [batch_update_supplierinfo_eq, ← hst]
      by_cases he : st.template_ids.isEmpty
      · rw [if_pos he]
      · rw [if_neg he]
        simp only []
        rw [hsp]
        rfl
  · -- v2 re-run with unchanged data: no calls, nothing updated
    intro hall
    obtain ⟨h1, h2⟩ := V2Stock.v2partition_empty pc (V2Stock.buildExisting qs) sr hall
    constructor
    · rw [update_odoo_stock_eq]
      simp only []
      rw [h1, h2, chunksOf_nil]
      rfl
    · rw [update_odoo_stock_eq]
      simp only []
      rw [h1]
      rfl

/-- Witness inputs for C10: one supplier pair whose cached seller already
holds the new price, and one v2 pair whose cached quant already holds the
new quantity. -/
def c10pd : List (Nat × BatchSupplier.SupplierData) := [(1, ⟨5⟩)]

def c10pi : List (Nat × BatchStock.ProductInfoEntry) := [(1, ⟨11, some 7, true⟩)]

def c10sellers : List (Nat × BatchSupplier.SellerInfo) := [(7, ⟨70, 5⟩)]

def c10pc : List (Nat × V2Stock.V2Info) := [(2, ⟨21, true⟩)]

def c10sr : List (Nat × Int) := [(2, 3)]

def c10qs : List V2Stock.V2Quant := [⟨301, 21, 3⟩]

/-- Witness for C10 at the concrete inputs: no write is issued and nothing
is reported updated when the cached values already match. -/
theorem C10_skip_equal_values_witness :
    1 ∉ (BatchSupplier.batch_update_supplierinfo c10pd c10pi c10sellers
        (fun _ => true) true (fun _ => true)).1.updated
    ∧ (∀ ids p, BatchSupplier.SupplierCall.write ids p ∈
        (BatchSupplier.batch_update_supplierinfo c10pd c10pi c10sellers
          (fun _ => true) true (fun _ => true)).2 → (70 : Nat) ∉ ids)
    ∧ (∀ ids q, V2Stock.V2Call.write ids q ∈
        (V2Stock.update_odoo_stock c10pc c10sr c10qs
          (fun _ => true) (fun _ => true) (fun _ => true)).2 → (301 : Nat) ∉ ids)
    ∧ ((∀ p ∈ c10pd, ∀ i', dlookup p.1 c10pi = some i' → ∃ t' s',
          i'.template_id = some t' ∧ dlookup t' c10sellers = some s' ∧
          s'.price = p.2.precioCosto) →
        (BatchSupplier.batch_update_supplierinfo c10pd c10pi c10sellers
          (fun _ => true) true (fun _ => true)).2 = []
        ∧ (BatchSupplier.batch_update_supplierinfo c10pd c10pi c10sellers
          (fun _ => true) true (fun _ => true)).1.updated = [])
    ∧ ((∀ p ∈ c10sr, ∀ i', dlookup p.1 c10pc = some i' → i'.is_storable = true →
          ∃ q, dlookup i'.product_id (V2Stock.buildExisting c10qs) = some q ∧
            q.quantity = p.2) →
        (V2Stock.update_odoo_stock c10pc c10sr c10qs
          (fun _ => true) (fun _ => true) (fun _ => true)).2 = []
        ∧ (V2Stock.update_odoo_stock c10pc c10sr c10qs
          (fun _ => true) (fun _ => true) (fun _ => true)).1.updated = 0) :=
  C10_skip_equal_values c10pd c10pi c10sellers (fun _ => true) true (fun _ => true)
    1 ⟨5⟩ ⟨11, some 7, true⟩ 7 ⟨70, 5⟩
    (by decide) (by decide) (by decide) (by decide) (by decide)
    (by decide) (by decide)
    c10pc c10sr c10qs (fun _ => true) (fun _ => true) (fun _ => true)
    2 3 ⟨21, true⟩ ⟨301, 21, 3⟩
    (by decide) (by decide) (by decide) (by decide) (by decide) (by decide)

/-- Witness inputs for the C6 create scenarios: 100 storable products,
none with an existing quant, of which product id 1057 (code 57) is the
one bad record the create call rejects. -/
def c6v2pc : List (Nat × V2Stock.V2Info) :=
  (List.range 100).map (fun i => (i, ⟨i + 1000, true⟩))

def c6v2sr : List (Nat × Int) := (List.range 100).map (fun i => (i, (1 : Int)))

def c6BadChunk : List (Nat × Int) → Bool :=
  fun recs => !(decide ((1057, (1 : Int)) ∈ recs))

def c6BadSingle : Nat → Bool := fun pid => pid != 1057

def c6mCache : BatchStock.CachedStock Nat :=
  ⟨99, [], (List.range 100).map (fun i => (i, ⟨i + 1000, some (i + 2000), true⟩))⟩

def c6mProducts : List (Nat × BatchStock.StockData) :=
  (List.range 100).map (fun i => (i, ⟨some (BatchStock.PyVal.vint 5)⟩))

set_option maxRecDepth 8000 in
/-- Claim C6 (amended): the v2 synchronizer issues creates in chunks of at
most 100 records, falling back to per-item creation for just the failed
chunk, so 1 bad record out of 100 yields 99 creates and 1 error; the
main stock pass issues one unbounded bulk create for the whole partition,
but its per-item fallback over the partition also yields 99 creates and 1
error for the same scenario. -/
theorem C6_chunked_creates {κ : Type} [DecidableEq κ]
    (pc : List (κ × V2Stock.V2Info)) (sr : List (κ × Int)) (qs : List V2Stock.V2Quant)
    (vwOk : Int → Bool) (vcOk : List (Nat × Int) → Bool) (vsOk : Nat → Bool)
    (recs : List (Nat × Int))
    (hrecs : V2Stock.V2Call.create recs ∈
      (V2Stock.update_odoo_stock pc sr qs vwOk vcOk vsOk).2) :
    recs.length ≤ 100
    ∧ (V2Stock.update_odoo_stock c6v2pc c6v2sr [] (fun _ => true)
        c6BadChunk c6BadSingle).1.created = 99
    ∧ (V2Stock.update_odoo_stock c6v2pc c6v2sr [] (fun _ => true)
        c6BadChunk c6BadSingle).1.errors = [57]
    ∧ (BatchStock.batch_update_stock_quants c6mProducts c6mCache []
        (fun _ => true) false c6BadSingle).1.created.length = 99
    ∧ (BatchStock.batch_update_stock_quants c6mProducts c6mCache []
        (fun _ => true) false c6BadSingle).1.errors = [57] := by
  refine ⟨?_, by rfl, by rfl, by rfl, by rfl⟩
  rw [update_odoo_stock_eq] at hrecs
  simp only [] at hrecs
  rcases List.mem_append.mp hrecs with hcall | hcall
  · rw [V2Stock.v2updatesRun_calls] at hcall
    obtain ⟨g, _, hgw⟩ := List.mem_map.mp hcall
    simp at hgw
  · obtain ⟨recs', habs, hlen⟩ := V2Stock.v2createsRun_bound vcOk vsOk _
      (chunksOf_length_le 100 _) _ hcall
    obtain rfl : recs = recs' := by
      simpa using habs
    exact hlen

set_option maxRecDepth 8000 in
/-- Witness for C6 at a concrete input: one of the per-item fallback
creates of the failed chunk is a bona fide create call of ≤ 100 records. -/
theorem C6_chunked_creates_witness :
    V2Stock.V2Call.create [(1000, 1)] ∈
      (V2Stock.update_odoo_stock c6v2pc c6v2sr [] (fun _ => true)
        c6BadChunk c6BadSingle).2
    ∧ ([((1000 : Nat), (1 : Int))].length ≤ 100
    ∧ (V2Stock.update_odoo_stock c6v2pc c6v2sr [] (fun _ => true)
        c6BadChunk c6BadSingle).1.created = 99
    ∧ (V2Stock.update_odoo_stock c6v2pc c6v2sr [] (fun _ => true)
        c6BadChunk c6BadSingle).1.errors = [57]
    ∧ (BatchStock.batch_update_stock_quants c6mProducts c6mCache []
        (fun _ => true) false c6BadSingle).1.created.length = 99
    ∧ (BatchStock.batch_update_stock_quants c6mProducts c6mCache []
        (fun _ => true) false c6BadSingle).1.errors = [57]) :=
  ⟨by decide, C6_chunked_creates c6v2pc c6v2sr [] (fun _ => true)
    c6BadChunk c6BadSingle [(1000, 1)] (by decide)⟩

namespace Matcher

open CodeNormalizer (normalize_code pyStrip)

/-- A raw product code. -/
abbrev Code := List Char

/-- The authoritative-code loop of `_load_matched_codes` (`src/main.py`
lines 1857-1864): collect the stripped original in the set and map the
normalized key to it (overwriting earlier codes with the same key),
skipping codes whose normalized form is empty. -/
def buildProductosGo : List Code → List Code × List (Code × Code) →
    List Code × List (Code × Code)
  | [], st => st
  | code :: rest, st =>
    let o := pyStrip code
    let n := normalize_code (some code)
    if n.isEmpty then buildProductosGo rest st
    else buildProductosGo rest (st.1 ++ [o], dinsert n o st.2)

def buildProductos (codes : List Code) : List Code × List (Code × Code) :=
  buildProductosGo codes ([], [])

/-- The scraped-code loop (`src/main.py` lines 1878-1885): same, but also
skipping codes whose stripped original is empty. -/
def buildArticulosGo : List Code → List Code × List (Code × Code) →
    List Code × List (Code × Code)
  | [], st => st
  | code :: rest, st =>
    let o := pyStrip code
    let n := normalize_code (some code)
    if n.isEmpty || o.isEmpty then buildArticulosGo rest st
    else buildArticulosGo rest (st.1 ++ [o], dinsert n o st.2)

def buildArticulos (codes : List Code) : List Code × List (Code × Code) :=
  buildArticulosGo codes ([], [])

/-- `matched_codes_exact = codigos_productos.intersection(codigos_articulos)`
(`src/main.py` line 1888), as the sub-collection of authoritative codes
present among the scraped codes. -/
def matchedExact (prod art : List Code) : List Code := prod.filter (· ∈ art)

/-- `self.scraping_to_odoo_code[code] = code` for each exact match
(`src/main.py` lines 1891-1892). -/
def exactMapping (exact : List Code) (m : List (Code × Code)) : List (Code × Code) :=
  exact.foldl (fun mm c => dinsert c c mm) m

/-- The normalized-match loop (`src/main.py` lines 1895-1903): for each
normalized key of the authoritative map that also appears in the scraped
map, record the scraped code as matched and map it to the authoritative
code. -/
def normLoop (artN : List (Code × Code)) :
    List (Code × Code) → List Code × List (Code × Code) →
      List Code × List (Code × Code)
  | [], st => st
  | (n, oc) :: rest, st =>
    match dlookup n artN with
    | some sc => normLoop artN rest (st.1 ++ [sc], dinsert sc oc st.2)
    | none => normLoop artN rest st

/-- The result of `_load_matched_codes`: exact matches, normalized
matches, their union, and the scraping-to-odoo `MatchMapping`. -/
structure MatchResult where
  exact : List Code
  matched_norm : List Code
  matched_all : List Code
  mapping : List (Code × Code)

/-- The matching core of `_load_matched_codes` (`src/main.py` lines
1853-1915), over the non-null authoritative and scraped code columns. -/
def load_matched_codes (odooCodes scrapedCodes : List Code) : MatchResult :=
  let p := buildProductos odooCodes
  let a := buildArticulos scrapedCodes
  let exact := matchedExact p.1 a.1
  let m0 := exactMapping exact []
  let r := normLoop a.2 p.2 ([], m0)
  ⟨exact, r.1, exact ++ r.1, r.2⟩

theorem pyStrip_rdrop (l : List Char) :
    pyStrip l = List.rdropWhile Char.isWhitespace (l.dropWhile Char.isWhitespace) := by
  simp [CodeNormalizer.pyStrip, List.rdropWhile]

theorem dropWhile_fixed_of_rdrop (l : List Char)
    (h : l.dropWhile Char.isWhitespace = l) :
    (List.rdropWhile Char.isWhitespace l).dropWhile Char.isWhitespace =
      List.rdropWhile Char.isWhitespace l := by
  cases hr : List.rdropWhile Char.isWhitespace l with
  | nil => rfl
  | cons a t =>
    obtain ⟨rest, hrest⟩ : ∃ rest, (a :: t) ++ rest = l := by
      have := List.rdropWhile_prefix (l := l) (p := Char.isWhitespace)
      rw [hr] at this
      exact this
    rw [List.dropWhile_cons]
    by_cases hw : a.isWhitespace = true
    · exfalso
      rw [← hrest] at h
      rw [List.cons_append, List.dropWhile_cons, if_pos hw] at h
      have hle : ((t ++ rest).dropWhile Char.isWhitespace).length ≤ (t ++ rest).length :=
        (List.dropWhile_sublist Char.isWhitespace).length_le
      rw [h] at hle
      simp at hle
    · rw [if_neg hw]

theorem pyStrip_idem (l : List Char) : pyStrip (pyStrip l) = pyStrip l := by
  rw [pyStrip_rdrop l, pyStrip_rdrop]
  rw [dropWhile_fixed_of_rdrop _ (List.dropWhile_idempotent _ _)]
  exact List.rdropWhile_idempotent _ _

theorem normalize_code_pyStrip (l : List Char) :
    normalize_code (some (pyStrip l)) = normalize_code (some l) := by
  by_cases hl : l.isEmpty
  · rw [List.isEmpty_iff] at hl
    subst hl
    rfl
  · by_cases hs : (pyStrip l).isEmpty
    · rw [List.isEmpty_iff] at hs
      rw [hs]
      show ([] : List Char) = normalize_code (some l)
      rw [CodeNormalizer.normalize_code_some, if_neg hl, hs]
      rfl
    · rw [CodeNormalizer.normalize_code_some, if_neg hs,
        CodeNormalizer.normalize_code_some, if_neg hl, pyStrip_idem]

theorem buildProductosGo_set_sound :
    ∀ (codes : List Code) (st : List Code × List (Code × Code)) (c : Code),
      c ∈ (buildProductosGo codes st).1 →
      c ∈ st.1 ∨ ∃ code ∈ codes, pyStrip code = c ∧
        ¬(normalize_code (some code)).isEmpty = true := by
  intro codes
  induction codes with
  | nil => intro st c h; left; exact h
  | cons code rest ih =>
    intro st c h
    rw [buildProductosGo] at h
    by_cases hn : (normalize_code (some code)).isEmpty
    · rw [if_pos hn] at h
      rcases ih st c h with h | ⟨cd, hm, hr⟩
      · left; exact h
      · right; exact ⟨cd, List.mem_cons_of_mem _ hm, hr⟩
    · rw [if_neg hn] at h
      rcases ih _ c h with h | ⟨cd, hm, hr⟩
      · rcases List.mem_append.mp h with h | h
        · left; exact h
        · rw [List.mem_singleton] at h
          right
          exact ⟨code, List.mem_cons_self _ _, h.symm, hn⟩
      · right; exact ⟨cd, List.mem_cons_of_mem _ hm, hr⟩

theorem buildArticulosGo_set_sound :
    ∀ (codes : List Code) (st : List Code × List (Code × Code)) (c : Code),
      c ∈ (buildArticulosGo codes st).1 →
      c ∈ st.1 ∨ ∃ code ∈ codes, pyStrip code = c ∧
        ¬(normalize_code (some code)).isEmpty = true ∧
        ¬(pyStrip code).isEmpty = true := by
  intro codes
  induction codes with
  | nil => intro st c h; left; exact h
  | cons code rest ih =>
    intro st c h
    rw [buildArticulosGo] at h
    by_cases hn : ((normalize_code (some code)).isEmpty || (pyStrip code).isEmpty) = true
    · rw [if_pos hn] at h
      rcases ih st c h with h | ⟨cd, hm, hr⟩
      · left; exact h
      · right; exact ⟨cd, List.mem_cons_of_mem _ hm, hr⟩
    · rw [if_neg hn] at h
      rw [Bool.or_eq_true, not_or] at hn
      rcases ih _ c h with h | ⟨cd, hm, hr⟩
      · rcases List.mem_append.mp h with h | h
        · left; exact h
        · rw [List.mem_singleton] at h
          right
          exact ⟨code, List.mem_cons_self _ _, h.symm, hn.1, hn.2⟩
      · right; exact ⟨cd, List.mem_cons_of_mem _ hm, hr⟩

theorem buildProductosGo_dict_sound :
    ∀ (codes : List Code) (st : List Code × List (Code × Code)) (k v : Code),
      dlookup k (buildProductosGo codes st).2 = some v →
      dlookup k st.2 = some v ∨ ∃ code ∈ codes, normalize_code (some code) = k ∧
        pyStrip code = v := by
  intro codes
  induction codes with
  | nil => intro st k v h; left; exact h
  | cons code rest ih =>
    intro st k v h
    rw [buildProductosGo] at h
    by_cases hn : (normalize_code (some code)).isEmpty
    · rw [if_pos hn] at h
      rcases ih st k v h with h | ⟨cd, hm, hr⟩
      · left; exact h
      · right; exact ⟨cd, List.mem_cons_of_mem _ hm, hr⟩
    · rw [if_neg hn] at h
      rcases ih _ k v h with h | ⟨cd, hm, hr⟩
      · by_cases hk : normalize_code (some code) = k
        · rw [hk, dlookup_dinsert_self] at h
          right
          exact ⟨code, List.mem_cons_self _ _, hk, Option.some.inj h⟩
        · rw [dlookup_dinsert_ne _ hk] at h
          left; exact h
      · right; exact ⟨cd, List.mem_cons_of_mem _ hm, hr⟩

theorem buildArticulosGo_dict_sound :
    ∀ (codes : List Code) (st : List Code × List (Code × Code)) (k v : Code),
      dlookup k (buildArticulosGo codes st).2 = some v →
      dlookup k st.2 = some v ∨ ∃ code ∈ codes, normalize_code (some code) = k ∧
        pyStrip code = v := by
  intro codes
  induction codes with
  | nil => intro st k v h; left; exact h
  | cons code rest ih =>
    intro st k v h
    rw [buildArticulosGo] at h
    by_cases hn : ((normalize_code (some code)).isEmpty || (pyStrip code).isEmpty) = true
    · rw [if_pos hn] at h
      rcases ih st k v h with h | ⟨cd, hm, hr⟩
      · left; exact h
      · right; exact ⟨cd, List.mem_cons_of_mem _ hm, hr⟩
    · rw [if_neg hn] at h
      rcases ih _ k v h with h | ⟨cd, hm, hr⟩
      · by_cases hk : normalize_code (some code) = k
        · rw [hk, dlookup_dinsert_self] at h
          right
          exact ⟨code, List.mem_cons_self _ _, hk, Option.some.inj h⟩
        · rw [dlookup_dinsert_ne _ hk] at h
          left; exact h
      · right; exact ⟨cd, List.mem_cons_of_mem _ hm, hr⟩

theorem buildProductosGo_pres :
    ∀ (codes : List Code) (st : List Code × List (Code × Code)) (k : Code),
      (dlookup k st.2).isSome = true →
      (dlookup k (buildProductosGo codes st).2).isSome = true := by
  intro codes
  induction codes with
  | nil => intro st k h; exact h
  | cons code rest ih =>
    intro st k h
    rw [buildProductosGo]
    by_cases hn : (normalize_code (some code)).isEmpty
    · rw [if_pos hn]; exact ih st k h
    · rw [if_neg hn]
      refine ih _ k ?_
      exact dlookup_isSome_dinsert _ _ (Or.inr h)

theorem buildProductosGo_key_complete :
    ∀ (codes : List Code) (st : List Code × List (Code × Code)) (code : Code),
      code ∈ codes → ¬(normalize_code (some code)).isEmpty = true →
      (dlookup (normalize_code (some code)) (buildProductosGo codes st).2).isSome = true := by
  intro codes
  induction codes with
  | nil => intro st code h; simp at h
  | cons code0 rest ih =>
    intro st code hm hn
    rw [buildProductosGo]
    rcases List.mem_cons.mp hm with heq | hm
    · subst heq
      rw [if_neg hn]
      refine buildProductosGo_pres rest _ _ ?_
      exact dlookup_isSome_dinsert _ _ (Or.inl rfl)
    · by_cases hn0 : (normalize_code (some code0)).isEmpty
      · rw [if_pos hn0]; exact ih st code hm hn
      · rw [if_neg hn0]; exact ih _ code hm hn

theorem buildArticulosGo_pres :
    ∀ (codes : List Code) (st : List Code × List (Code × Code)) (k : Code),
      (dlookup k st.2).isSome = true →
      (dlookup k (buildArticulosGo codes st).2).isSome = true := by
  intro codes
  induction codes with
  | nil => intro st k h; exact h
  | cons code rest ih =>
    intro st k h
    rw [buildArticulosGo]
    by_cases hn : ((normalize_code (some code)).isEmpty || (pyStrip code).isEmpty) = true
    · rw [if_pos hn]; exact ih st k h
    · rw [if_neg hn]
      refine ih _ k ?_
      exact dlookup_isSome_dinsert _ _ (Or.inr h)

theorem buildArticulosGo_key_complete :
    ∀ (codes : List Code) (st : List Code × List (Code × Code)) (code : Code),
      code ∈ codes → ¬(normalize_code (some code)).isEmpty = true →
      ¬(pyStrip code).isEmpty = true →
      (dlookup (normalize_code (some code)) (buildArticulosGo codes st).2).isSome = true := by
  intro codes
  induction codes with
  | nil => intro st code h; simp at h
  | cons code0 rest ih =>
    intro st code hm hn ho
    rw [buildArticulosGo]
    rcases List.mem_cons.mp hm with heq | hm
    · subst heq
      rw [if_neg (by simp [hn, ho])]
      refine buildArticulosGo_pres rest _ _ ?_
      exact dlookup_isSome_dinsert _ _ (Or.inl rfl)
    · by_cases hn0 : ((normalize_code (some code0)).isEmpty || (pyStrip code0).isEmpty) = true
      · rw [if_pos hn0]; exact ih st code hm hn ho
      · rw [if_neg hn0]; exact ih _ code hm hn ho

theorem normLoop_matched_suffix (artN : List (Code × Code)) :
    ∀ (entries : List (Code × Code)) (st : List Code × List (Code × Code)),
      ∃ t, (normLoop artN entries st).1 = st.1 ++ t := by
  intro entries
  induction entries with
  | nil => intro st; exact ⟨[], by simp [normLoop]⟩
  | cons e rest ih =>
    intro st
    obtain ⟨n, oc⟩ := e
    rw [normLoop]
    cases hl : dlookup n artN with
    | none => exact ih st
    | some sc =>
      obtain ⟨t, ht⟩ := ih (st.1 ++ [sc], dinsert sc oc st.2)
      exact ⟨[sc] ++ t, by simpa using ht⟩

theorem normLoop_matched_complete (artN : List (Code × Code)) :
    ∀ (entries : List (Code × Code)) (st : List Code × List (Code × Code))
      (k oc sc : Code), (k, oc) ∈ entries → dlookup k artN = some sc →
      sc ∈ (normLoop artN entries st).1 := by
  intro entries
  induction entries with
  | nil => intro st k oc sc h; simp at h
  | cons e rest ih =>
    intro st k oc sc hm hl
    obtain ⟨n, oc'⟩ := e
    rcases List.mem_cons.mp hm with heq | hm
    · simp only [Prod.mk.injEq] at heq
      obtain ⟨rfl, rfl⟩ := heq
      rw [normLoop, hl]
      obtain ⟨t, ht⟩ := normLoop_matched_suffix artN rest (st.1 ++ [sc], dinsert sc oc st.2)
      rw [ht]
      simp
    · rw [normLoop]
      cases hl0 : dlookup n artN with
      | none => exact ih st k oc sc hm hl
      | some sc0 => exact ih _ k oc sc hm hl

theorem normLoop_mapping_pres (artN : List (Code × Code)) :
    ∀ (entries : List (Code × Code)) (st : List Code × List (Code × Code)) (c : Code),
      (dlookup c st.2).isSome = true →
      (dlookup c (normLoop artN entries st).2).isSome = true := by
  intro entries
  induction entries with
  | nil => intro st c h; exact h
  | cons e rest ih =>
    intro st c h
    obtain ⟨n, oc⟩ := e
    rw [normLoop]
    cases hl : dlookup n artN with
    | none => exact ih st c h
    | some sc =>
      refine ih _ c ?_
      exact dlookup_isSome_dinsert _ _ (Or.inr h)

theorem normLoop_mapping_total (artN : List (Code × Code)) :
    ∀ (entries : List (Code × Code)) (st : List Code × List (Code × Code)),
      (∀ c ∈ st.1, (dlookup c st.2).isSome = true) →
      ∀ c ∈ (normLoop artN entries st).1,
        (dlookup c (normLoop artN entries st).2).isSome = true := by
  intro entries
  induction entries with
  | nil => intro st h c hc; exact h c hc
  | cons e rest ih =>
    intro st h c hc
    obtain ⟨n, oc⟩ := e
    rw [normLoop] at hc ⊢
    cases hl : dlookup n artN with
    | none =>
      rw [hl] at hc
      exact ih st h c hc
    | some sc =>
      rw [hl] at hc
      refine ih _ ?_ c hc
      intro c' hc'
      rcases List.mem_append.mp hc' with hc' | hc'
      · exact dlookup_isSome_dinsert _ _ (Or.inr (h c' hc'))
      · rw [List.mem_singleton] at hc'
        subst hc'
        exact dlookup_isSome_dinsert _ _ (Or.inl rfl)

theorem normLoop_nodup_keys (artN : List (Code × Code)) :
    ∀ (entries : List (Code × Code)) (st : List Code × List (Code × Code)),
      (dkeys st.2).Nodup → (dkeys (normLoop artN entries st).2).Nodup := by
  intro entries
  induction entries with
  | nil => intro st h; exact h
  | cons e rest ih =>
    intro st h
    obtain ⟨n, oc⟩ := e
    rw [normLoop]
    cases hl : dlookup n artN with
    | none => exact ih st h
    | some sc => exact ih _ (dkeys_dinsert_nodup _ _ _ h)

theorem exactMapping_isSome :
    ∀ (l : List Code) (m : List (Code × Code)) (c : Code),
      c ∈ l ∨ (dlookup c m).isSome = true →
      (dlookup c (exactMapping l m)).isSome = true := by
  intro l
  induction l with
  | nil =>
    intro m c h
    rcases h with h | h
    · simp at h
    · exact h
  | cons a l ih =>
    intro m c h
    have hstep : exactMapping (a :: l) m = exactMapping l (dinsert a a m) := rfl
    rw [hstep]
    rcases h with h | h
    · rcases List.mem_cons.mp h with h | h
      · subst h
        exact ih _ c (Or.inr (dlookup_isSome_dinsert _ _ (Or.inl rfl)))
      · exact ih _ c (Or.inl h)
    · exact ih _ c (Or.inr (dlookup_isSome_dinsert _ _ (Or.inr h)))

theorem exactMapping_nodup :
    ∀ (l : List Code) (m : List (Code × Code)),
      (dkeys m).Nodup → (dkeys (exactMapping l m)).Nodup := by
  intro l
  induction l with
  | nil => intro m h; exact h
  | cons a l ih =>
    intro m h
    have hstep : exactMapping (a :: l) m = exactMapping l (dinsert a a m) := rfl
    rw [hstep]
    exact ih _ (dkeys_dinsert_nodup _ _ _ h)

theorem load_matched_codes_eq (o s : List Code) :
    load_matched_codes o s =
      ⟨matchedExact (buildProductos o).1 (buildArticulos s).1,
        (normLoop (buildArticulos s).2 (buildProductos o).2
          ([], exactMapping (matchedExact (buildProductos o).1 (buildArticulos s).1) [])).1,
        matchedExact (buildProductos o).1 (buildArticulos s).1 ++
          (normLoop (buildArticulos s).2 (buildProductos o).2
            ([], exactMapping (matchedExact (buildProductos o).1 (buildArticulos s).1) [])).1,
        (normLoop (buildArticulos s).2 (buildProductos o).2
          ([], exactMapping (matchedExact (buildProductos o).1 (buildArticulos s).1) [])).2⟩ :=
  rfl

/-- The last element of `codes` that the authoritative loop maps to the
normalized key `k`, stripped: the value a CPython dict retains after the
insert-overwrite loop. -/
def findLastProd (k : Code) : List Code → Option Code
  | [] => none
  | code :: rest =>
    match findLastProd k rest with
    | some v => some v
    | none =>
      if ¬(normalize_code (some code)).isEmpty = true ∧ normalize_code (some code) = k
      then some (pyStrip code) else none

/-- Likewise for the scraped loop, which additionally requires a nonempty
stripped original. -/
def findLastArt (k : Code) : List Code → Option Code
  | [] => none
  | code :: rest =>
    match findLastArt k rest with
    | some v => some v
    | none =>
      if ¬(normalize_code (some code)).isEmpty = true ∧
          ¬(pyStrip code).isEmpty = true ∧ normalize_code (some code) = k
      then some (pyStrip code) else none

theorem buildProductosGo_lookup :
    ∀ (codes : List Code) (st : List Code × List (Code × Code)) (k : Code),
      dlookup k (buildProductosGo codes st).2 =
        match findLastProd k codes with
        | some v => some v
        | none => dlookup k st.2 := by
  intro codes
  induction codes with
  | nil => intro st k; rfl
  | cons code rest ih =>
    intro st k
    rw [buildProductosGo, findLastProd]
    by_cases hn : (normalize_code (some code)).isEmpty
    · rw [if_pos hn, ih]
      cases hfl : findLastProd k rest with
      | some v => rfl
      | none =>
        simp only []
        rw [if_neg (by simp [hn])]
    · rw [if_neg hn, ih]
      cases hfl : findLastProd k rest with
      | some v => rfl
      | none =>
        simp only []
        by_cases hk : normalize_code (some code) = k
        · rw [if_pos ⟨hn, hk⟩]
          rw [hk, dlookup_dinsert_self]
        · rw [if_neg (by simp [hk])]
          rw [dlookup_dinsert_ne _ hk]

theorem buildArticulosGo_lookup :
    ∀ (codes : List Code) (st : List Code × List (Code × Code)) (k : Code),
      dlookup k (buildArticulosGo codes st).2 =
        match findLastArt k codes with
        | some v => some v
        | none => dlookup k st.2 := by
  intro codes
  induction codes with
  | nil => intro st k; rfl
  | cons code rest ih =>
    intro st k
    rw [buildArticulosGo, findLastArt]
    by_cases hn : ((normalize_code (some code)).isEmpty || (pyStrip code).isEmpty) = true
    · rw [if_pos hn, ih]
      cases hfl : findLastArt k rest with
      | some v => rfl
      | none =>
        simp only []
        rw [Bool.or_eq_true] at hn
        rw [if_neg (by
          rcases hn with hn | hn
          · simp [hn]
          · simp [hn])]
    · rw [if_neg hn, ih]
      rw [Bool.or_eq_true, not_or] at hn
      cases hfl : findLastArt k rest with
      | some v => rfl
      | none =>
        simp only []
        by_cases hk : normalize_code (some code) = k
        · rw [if_pos ⟨hn.1, hn.2, hk⟩]
          rw [hk, dlookup_dinsert_self]
        · rw [if_neg (by simp [hk])]
          rw [dlookup_dinsert_ne _ hk]

theorem buildProductosGo_nodup :
    ∀ (codes : List Code) (st : List Code × List (Code × Code)),
      (dkeys st.2).Nodup → (dkeys (buildProductosGo codes st).2).Nodup := by
  intro codes
  induction codes with
  | nil => intro st h; exact h
  | cons code rest ih =>
    intro st h
    rw [buildProductosGo]
    by_cases hn : (normalize_code (some code)).isEmpty
    · rw [if_pos hn]; exact ih st h
    · rw [if_neg hn]
      exact ih _ (dkeys_dinsert_nodup _ _ _ h)

theorem buildArticulosGo_nodup :
    ∀ (codes : List Code) (st : List Code × List (Code × Code)),
      (dkeys st.2).Nodup → (dkeys (buildArticulosGo codes st).2).Nodup := by
  intro codes
  induction codes with
  | nil => intro st h; exact h
  | cons code rest ih =>
    intro st h
    rw [buildArticulosGo]
    by_cases hn : ((normalize_code (some code)).isEmpty || (pyStrip code).isEmpty) = true
    · rw [if_pos hn]; exact ih st h
    · rw [if_neg hn]
      exact ih _ (dkeys_dinsert_nodup _ _ _ h)

end Matcher

/-- Concrete inputs refuting the exact-subset half of C3: the two scraped
codes share the normalized key of the single authoritative code, and the
dict overwrite leaves the other scraped code as the normalized match. -/
def c3Odoo : List Matcher.Code := [['A', 'B']]

def c3Scraped : List Matcher.Code := [['A', 'B'], ['A', '-', 'B']]

/-- Counterexample for C3: "AB" is an exact raw-code match but is not in
the normalized-match set — the normalized key "AB" resolved to the later
scraped code "A-B". -/
theorem C3_exact_subset_counterexample :
    ['A', 'B'] ∈ (Matcher.load_matched_codes c3Odoo c3Scraped).exact
    ∧ ['A', 'B'] ∉ (Matcher.load_matched_codes c3Odoo c3Scraped).matched_norm
    ∧ (Matcher.load_matched_codes c3Odoo c3Scraped).matched_norm = [['A', '-', 'B']] := by
  refine ⟨by decide, by decide, by decide⟩

/-- Claim C3 (amended): every exact match has a nonempty canonical key
present in both normalized-key maps (a normalized-key match exists at that
key); the raw-code inclusion `exact ⊆ normalized` holds whenever
normalization is injective on the scraped codes; and every code in the
combined match set resolves via the MatchMapping to exactly one
authoritative code (the lookup succeeds and mapping keys are
duplicate-free). -/
theorem C3_match_resolution (odooCodes scrapedCodes : List Matcher.Code) :
    (∀ c ∈ (Matcher.load_matched_codes odooCodes scrapedCodes).exact,
      ¬(CodeNormalizer.normalize_code (some c)).isEmpty = true
      ∧ (dlookup (CodeNormalizer.normalize_code (some c))
          (Matcher.buildProductos odooCodes).2).isSome = true
      ∧ (dlookup (CodeNormalizer.normalize_code (some c))
          (Matcher.buildArticulos scrapedCodes).2).isSome = true)
    ∧ ((∀ a ∈ scrapedCodes, ∀ b ∈ scrapedCodes,
          CodeNormalizer.normalize_code (some a) = CodeNormalizer.normalize_code (some b) →
          CodeNormalizer.pyStrip a = CodeNormalizer.pyStrip b) →
        ∀ c ∈ (Matcher.load_matched_codes odooCodes scrapedCodes).exact,
          c ∈ (Matcher.load_matched_codes odooCodes scrapedCodes).matched_norm)
    ∧ (∀ c ∈ (Matcher.load_matched_codes odooCodes scrapedCodes).matched_all,
        (dlookup c (Matcher.load_matched_codes odooCodes scrapedCodes).mapping).isSome = true)
    ∧ (dkeys (Matcher.load_matched_codes odooCodes scrapedCodes).mapping).Nodup := by
  -- unpack the exact-match set once
  have hexact : ∀ c ∈ (Matcher.load_matched_codes odooCodes scrapedCodes).exact,
      (∃ code0 ∈ odooCodes, CodeNormalizer.pyStrip code0 = c ∧
        ¬(CodeNormalizer.normalize_code (some code0)).isEmpty = true) ∧
      (∃ code1 ∈ scrapedCodes, CodeNormalizer.pyStrip code1 = c ∧
        ¬(CodeNormalizer.normalize_code (some code1)).isEmpty = true ∧
        ¬(CodeNormalizer.pyStrip code1).isEmpty = true) := by
    intro c hc
    rw [Matcher.load_matched_codes_eq] at hc
    simp only [Matcher.matchedExact, List.mem_filter, decide_eq_true_eq] at hc
    obtain ⟨hp, ha⟩ := hc
    constructor
    · rcases Matcher.buildProductosGo_set_sound odooCodes ([], []) c hp with h | h
      · simp at h
      · exact h
    · rcases Matcher.buildArticulosGo_set_sound scrapedCodes ([], []) c ha with h | h
      · simp at h
      · exact h
  refine ⟨?_, ?_, ?_, ?_⟩
  · intro c hc
    obtain ⟨⟨code0, hm0, hs0, hn0⟩, ⟨code1, hm1, hs1, hn1, ho1⟩⟩ := hexact c hc
    refine ⟨?_, ?_, ?_⟩
    · rw [← hs0, Matcher.normalize_code_pyStrip]
      exact hn0
    · rw [← hs0, Matcher.normalize_code_pyStrip]
      exact Matcher.buildProductosGo_key_complete odooCodes ([], []) code0 hm0 hn0
    · rw [← hs1, Matcher.normalize_code_pyStrip]
      exact Matcher.buildArticulosGo_key_complete scrapedCodes ([], []) code1 hm1 hn1 ho1
  · intro hinj c hc
    obtain ⟨⟨code0, hm0, hs0, hn0⟩, ⟨code1, hm1, hs1, hn1, ho1⟩⟩ := hexact c hc
    -- the canonical key of c and its entries on both sides
    have hkeyP : (dlookup (CodeNormalizer.normalize_code (some code0))
        (Matcher.buildProductos odooCodes).2).isSome = true :=
      Matcher.buildProductosGo_key_complete odooCodes ([], []) code0 hm0 hn0
    have hkeyA : (dlookup (CodeNormalizer.normalize_code (some code1))
        (Matcher.buildArticulos scrapedCodes).2).isSome = true :=
      Matcher.buildArticulosGo_key_complete scrapedCodes ([], []) code1 hm1 hn1 ho1
    have hkk : CodeNormalizer.normalize_code (some code0) =
        CodeNormalizer.normalize_code (some code1) := by
      rw [← Matcher.normalize_code_pyStrip code0, ← Matcher.normalize_code_pyStrip code1,
        hs0, hs1]
    obtain ⟨oc, hoc⟩ := Option.isSome_iff_exists.mp hkeyP
    rw [hkk] at hoc
    obtain ⟨sc, hsc⟩ := Option.isSome_iff_exists.mp hkeyA
    -- the scraped value at the key is c itself, by injectivity
    have hscc : sc = c := by
      rcases Matcher.buildArticulosGo_dict_sound scrapedCodes ([], []) _ sc hsc with
        h | ⟨code2, hm2, hk2, hv2⟩
      · simp [dlookup] at h
      · have : CodeNormalizer.pyStrip code1 = CodeNormalizer.pyStrip code2 := by
          refine hinj code1 hm1 code2 hm2 ?_
          rw [hk2]
        rw [← hv2, ← this, hs1]
    have hpm : (CodeNormalizer.normalize_code (some code1), oc) ∈
        (Matcher.buildProductos odooCodes).2 := dlookup_some_mem hoc
    rw [Matcher.load_matched_codes_eq]
    show c ∈ (Matcher.normLoop (Matcher.buildArticulos scrapedCodes).2
      (Matcher.buildProductos odooCodes).2 _).1
    rw [← hscc]
    exact Matcher.normLoop_matched_complete (Matcher.buildArticulos scrapedCodes).2
      (Matcher.buildProductos odooCodes).2 _ _ oc sc hpm hsc
  · intro c hc
    rw [Matcher.load_matched_codes_eq] at hc ⊢
    simp only [List.mem_append] at hc
    rcases hc with hc | hc
    · show (dlookup c (Matcher.normLoop _ _ _).2).isSome = true
      refine Matcher.normLoop_mapping_pres _ _ _ c ?_
      exact Matcher.exactMapping_isSome _ [] c (Or.inl hc)
    · exact Matcher.normLoop_mapping_total _ _ _ (by simp) c hc
  · rw [Matcher.load_matched_codes_eq]
    show (dkeys (Matcher.normLoop _ _ _).2).Nodup
    refine Matcher.normLoop_nodup_keys _ _ _ ?_
    exact Matcher.exactMapping_nodup _ [] (by simp [dkeys])

/-- Concrete inputs refuting first-match-wins in C9: two scraped codes
with the same normalized key "AB". -/
def c9Odoo : List Matcher.Code := [['A', 'B']]

def c9Scraped : List Matcher.Code := [['A', '-', 'B'], ['A', '.', 'B']]

/-- Counterexample for C9: with duplicate normalized keys the matcher
retains the LAST match encountered, not the first — the normalized-key
dict maps "AB" to the later code "A.B", the matched set and MatchMapping
contain only "A.B", and the first code "A-B" is absent. -/
theorem C9_first_match_counterexample :
    (Matcher.load_matched_codes c9Odoo c9Scraped).matched_norm = [['A', '.', 'B']]
    ∧ ['A', '-', 'B'] ∉ (Matcher.load_matched_codes c9Odoo c9Scraped).matched_all
    ∧ dlookup ['A', '-', 'B'] (Matcher.load_matched_codes c9Odoo c9Scraped).mapping = none
    ∧ dlookup (['A', 'B'] : Matcher.Code) (Matcher.buildArticulos c9Scraped).2 =
        some ['A', '.', 'B'] := by
  refine ⟨by decide, by decide, by decide, by decide⟩

/-- Claim C9 (amended): when several codes normalize to the same canonical
key, each normalized-key map retains exactly one entry per key
(duplicate-free keys), namely the LAST matching code encountered during
bulk processing — dict insert-overwrite semantics — not the first. -/
theorem C9_last_match_wins (odooCodes scrapedCodes : List Matcher.Code)
    (k : Matcher.Code) :
    (dkeys (Matcher.buildProductos odooCodes).2).Nodup
    ∧ (dkeys (Matcher.buildArticulos scrapedCodes).2).Nodup
    ∧ dlookup k (Matcher.buildProductos odooCodes).2 =
        Matcher.findLastProd k odooCodes
    ∧ dlookup k (Matcher.buildArticulos scrapedCodes).2 =
        Matcher.findLastArt k scrapedCodes := by
  refine ⟨?_, ?_, ?_, ?_⟩
  · exact Matcher.buildProductosGo_nodup odooCodes ([], []) (by simp [dkeys])
  · exact Matcher.buildArticulosGo_nodup scrapedCodes ([], []) (by simp [dkeys])
  · rw [show Matcher.buildProductos odooCodes = Matcher.buildProductosGo odooCodes ([], [])
      from rfl]
    rw [Matcher.buildProductosGo_lookup]
    cases hfl : Matcher.findLastProd k odooCodes with
    | some v => rfl
    | none => rfl
  · rw [show Matcher.buildArticulos scrapedCodes =
      Matcher.buildArticulosGo scrapedCodes ([], []) from rfl]
    rw [Matcher.buildArticulosGo_lookup]
    cases hfl : Matcher.findLastArt k scrapedCodes with
    | some v => rfl
    | none => rfl

namespace Preload

/-- A `product.product` record as returned by the bulk `search_read` of
`_preload_product_information`. -/
structure ProductRecord where
  id : Nat
  default_code : List Char
  product_tmpl_id : Option Nat
  ptype : List Char
  is_storable : Bool
  deriving DecidableEq

/-- One value of the `product_info` dict built by
`_preload_product_information`. -/
structure PInfo where
  product_id : Nat
  template_id : Option Nat
  ptype : List Char
  is_storable : Bool
  odoo_code : List Char
  deriving DecidableEq

/-- A `stock.warehouse.orderpoint` record as returned by the two bulk
`search_read` calls of `_preload_replenishment_rules`. -/
structure RuleRecord where
  id : Nat
  product_tmpl_id : Option Nat
  deriving DecidableEq

/-- `_preload_product_information` (`src/main.py` lines 2453-2501):
translate the matched scraping codes through the code mapping, issue ONE
bulk `search_read` (counted; its response or failure is the `remote`
argument), and re-index the response by scraping code.  Returns the
`product_info` dict and the number of remote calls issued. -/
def preload_product_information (connected : Bool)
    (matched_codes_list : List (List Char))
    (scraping_to_odoo_code : List (List Char × List Char))
    (remote : Except Unit (List ProductRecord)) :
    List (List Char × PInfo) × Nat :=
  if !connected then ([], 0)
  else
    match remote with
    | Except.error _ => ([], 1)
    | Except.ok products =>
      let odoo_code_to_info := products.foldl (fun m p =>
        dinsert (CodeNormalizer.pyStrip p.default_code)
          (⟨p.id, p.product_tmpl_id, p.ptype, p.is_storable,
            CodeNormalizer.pyStrip p.default_code⟩ : PInfo) m) []
      let product_info := matched_codes_list.foldl (fun m sc =>
        let oc := (dlookup sc scraping_to_odoo_code).getD sc
        match dlookup oc odoo_code_to_info with
        | some i => dinsert sc i m
        | none => m) []
      (product_info, 1)

/-- `list(set(info['template_id'] for info in product_info.values() if
info['template_id']))` (`src/main.py` lines 2513, 2547): the truthy
template ids, de-duplicated. -/
def templateIdsOf (product_info : List (List Char × PInfo)) : List Nat :=
  (product_info.filterMap (fun p =>
    match p.2.template_id with
    | some t => if t = 0 then none else some t
    | none => none)).dedup

/-- `_preload_kits_information` (`src/main.py` lines 2503-2535): one bulk
BOM `search_read` over the template ids (counted), zero calls when there
is nothing to query.  `remote` is the queried template id of each
returned BOM. -/
def preload_kits_information (connected : Bool)
    (product_info : List (List Char × PInfo))
    (remote : Except Unit (List Nat)) : List Nat × Nat :=
  if !connected || product_info.isEmpty then ([], 0)
  else
    let template_ids := templateIdsOf product_info
    if template_ids.isEmpty then ([], 0)
    else
      match remote with
      | Except.error _ => ([], 1)
      | Except.ok boms => (boms, 1)

/-- `for rule in all_rules: ...` (`src/main.py` lines 2571-2577): group
the combined responses by truthy template id. -/
def buildRules (all_rules : List RuleRecord) : List (Nat × List RuleRecord) :=
  all_rules.foldl (fun m rule =>
    match rule.product_tmpl_id with
    | some t => if t = 0 then m else groupInsert t rule m
    | none => m) []

/-- `_preload_replenishment_rules` (`src/main.py` lines 2537-2584): one
bulk `search_read` by template ids (when any) and one by product ids
(nonempty whenever `product_info` is), each counted; exceptions abort
after the calls already made. -/
def preload_replenishment_rules (connected : Bool)
    (product_info : List (List Char × PInfo))
    (remoteT : Except Unit (List RuleRecord))
    (remoteP : Except Unit (List RuleRecord)) :
    List (Nat × List RuleRecord) × Nat :=
  if !connected || product_info.isEmpty then ([], 0)
  else
    let template_ids := templateIdsOf product_info
    if template_ids.isEmpty then
      match remoteP with
      | Except.error _ => ([], 1)
      | Except.ok rulesP => (buildRules rulesP, 1)
    else
      match remoteT with
      | Except.error _ => ([], 1)
      | Except.ok rulesT =>
        match remoteP with
        | Except.error _ => ([], 2)
        | Except.ok rulesP => (buildRules (rulesT ++ rulesP), 2)

end Preload

/-- Single-entry `product_info` for the C2 counterexample: one matched
code with a truthy template id. -/
def c2Info : List (List Char × Preload.PInfo) :=
  [(['x'], ⟨1, some 7, ['p'], true, ['x']⟩)]

/-- Counterexample for C2: the replenishment-rule preload issues TWO bulk
queries — one by template ids and one by product ids — on an input with a
single matched code, not exactly one. -/
theorem C2_single_call_counterexample :
    (Preload.preload_replenishment_rules true c2Info
      (Except.ok []) (Except.ok [])).2 = 2 ∧ (2 : Nat) ≠ 1 := by
  refine ⟨by rfl, by decide⟩

/-- Claim C2 (amended): each preload issues a constant number of bulk
queries independent of input size — the product-info preload exactly one;
the kit-flag preload exactly one when it has template ids to query and
zero otherwise; the replenishment-rule preload exactly two (one by
template ids, one by product ids) when both key sets are nonempty, and at
most two in every case. -/
theorem C2_preload_call_counts
    (matched : List (List Char)) (mapping : List (List Char × List Char))
    (remote : Except Unit (List Preload.ProductRecord))
    (product_info : List (List Char × Preload.PInfo))
    (remoteK : Except Unit (List Nat))
    (remoteT remoteP : Except Unit (List Preload.RuleRecord))
    (rulesT rulesP : List Preload.RuleRecord)
    (hne : ¬product_info.isEmpty = true)
    (htmpl : ¬(Preload.templateIdsOf product_info).isEmpty = true)
    (hT : remoteT = Except.ok rulesT) (hP : remoteP = Except.ok rulesP) :
    (Preload.preload_product_information true matched mapping remote).2 = 1
    ∧ (Preload.preload_kits_information true product_info remoteK).2 = 1
    ∧ (Preload.preload_kits_information true [] remoteK).2 = 0
    ∧ (Preload.preload_replenishment_rules true product_info remoteT remoteP).2 = 2
    ∧ (∀ (pinfo : List (List Char × Preload.PInfo))
        (rT rP : Except Unit (List Preload.RuleRecord)),
        (Preload.preload_replenishment_rules true pinfo rT rP).2 ≤ 2) := by
  refine ⟨?_, ?_, ?_, ?_, ?_⟩
  · rw [Preload.preload_product_information.eq_def]
    cases remote <;> simp
  · rw [Preload.preload_kits_information.eq_def]
    rw [if_neg (by simpa using hne)]
    simp only []
    rw [if_neg htmpl]
    cases remoteK <;> rfl
  · rfl
  · rw [Preload.preload_replenishment_rules.eq_def]
    rw [if_neg (by simpa using hne)]
    simp only []
    rw [if_neg htmpl, hT, hP]
  · intro pinfo rT rP
    rw [Preload.preload_replenishment_rules.eq_def]
    by_cases h0 : (!true || pinfo.isEmpty) = true
    · rw [if_pos h0]; norm_num
    · rw [if_neg h0]
      simp only []
      by_cases h1 : (Preload.templateIdsOf pinfo).isEmpty
      · rw [if_pos h1]
        cases rP <;> simp
      · rw [if_neg h1]
        cases rT
        · simp
        · cases rP <;> simp

/-- Witness for C2 at a concrete single-entry input. -/
theorem C2_preload_call_counts_witness :
    (Preload.preload_product_information true [['x']] []
        (Except.ok [⟨1, ['x'], some 7, ['p'], true⟩])).2 = 1
    ∧ (Preload.preload_kits_information true c2Info (Except.ok [])).2 = 1
    ∧ (Preload.preload_kits_information true [] (Except.ok [])).2 = 0
    ∧ (Preload.preload_replenishment_rules true c2Info
        (Except.ok []) (Except.ok [])).2 = 2
    ∧ (∀ (pinfo : List (List Char × Preload.PInfo))
        (rT rP : Except Unit (List Preload.RuleRecord)),
        (Preload.preload_replenishment_rules true pinfo rT rP).2 ≤ 2) :=
  C2_preload_call_counts [['x']] [] (Except.ok [⟨1, ['x'], some 7, ['p'], true⟩])
    c2Info (Except.ok []) (Except.ok []) (Except.ok []) [] []
    (by decide) (by decide) rfl rfl

/-- Example codes from the spec, as character lists. -/
def sampleUpperSpace : List Char := ['S', 'A', ' ', '1', '7', '4', '8', '3']

def sampleLowerDash : List Char := ['s', 'a', '-', '1', '7', '4', '8', '3']

def sampleUpperDot : List Char := ['S', 'A', '.', '1', '7', '4', '8', '3']

/-- Claim C4: `normalize` is idempotent — for every input `x`,
`normalize(normalize(x)) == normalize(x)` — and is case-, whitespace-, and
punctuation-insensitive: `normalize("SA 17483") == normalize("sa-17483")
== normalize("SA.17483")`. -/
theorem C4_normalize_idempotent_insensitive :
    (∀ x, CodeNormalizer.normalize_code (some (CodeNormalizer.normalize_code x)) =
        CodeNormalizer.normalize_code x)
    ∧ CodeNormalizer.normalize_code (some sampleUpperSpace) =
        CodeNormalizer.normalize_code (some sampleLowerDash)
    ∧ CodeNormalizer.normalize_code (some sampleLowerDash) =
        CodeNormalizer.normalize_code (some sampleUpperDot) := by
  refine ⟨CodeNormalizer.normalize_code_idem, ?_, ?_⟩ <;> decide
